import Mathlib

/-!
Verification of the reference-parsing and keyword-scanning core of the
RambamBot repository (src/helpers/helpers.py, src/helpers/keywordmessageparser.py,
src/sources/biblegateway.py, src/sources/sefaria.py).

The Python code is shallowly embedded:

* Python strings are Lean `String`s; the algorithmic parts work on the
  underlying `List Char` (a Python `str` is a sequence of code points).
* The character classes of the regular expressions are modelled at ASCII
  level: the source regexes only ever match `[A-Za-z]`, ASCII digits, the
  whitespace characters and `[ab]`, and all table data is ASCII, so the
  ASCII model agrees with the Python `re` module on every input the
  claims quantify over.
* The regular expression in `BibleBooks.extract_book_reference`,
  `^(\d*\s*[A-Za-z]+(?:\s[A-Za-z]+)*)(?:\s+(\d+)([ab])?(?:[:.](\d+(?:-\d+)?))?)?`,
  is deterministic: every quantifier is followed by a construct whose
  first character class is disjoint from the quantified one, so greedy
  matching without backtracking computes the unique Python match.  The
  embedding below (`matchBook`, `matchTail`, `matchRef`) is that greedy
  matcher, written with `takeWhile`/`dropWhile`.
* `fuzzywuzzy.fuzz.ratio` is an external library dependency (not part of
  this repository); it is modelled as an arbitrary similarity-score
  parameter `ratio : String → String → Nat`, so all theorems about
  `fuzzy_match_best_dicts` hold for every scoring function.
* Python `list.sort` / `sort(key=..., reverse=True)` is a stable sort;
  a stable sort by a fixed key is extensionally unique, and is modelled
  by `List.insertionSort` with the corresponding total preorder.
-/

/-- Python `\d` at ASCII level: a decimal digit. -/
def pyDigit (c : Char) : Bool := c.isDigit

/-- Python `[A-Za-z]`: an ASCII letter (this is exactly `Char.isAlpha`). -/
def pyAlpha (c : Char) : Bool := c.isAlpha

/-- Python `\s` at ASCII level: space, tab, newline, carriage return,
vertical tab, form feed. -/
def pySpace (c : Char) : Bool :=
  c = ' ' || c = '\t' || c = '\n' || c = '\r' || c = '\u000B' || c = '\u000C'

/-- Python `\w` at ASCII level: letter, digit or underscore. -/
def pyWordChar (c : Char) : Bool := pyAlpha c || pyDigit c || c = '_'

/-- Python `str.strip()` on the character list: remove leading and
trailing whitespace. -/
def pyStrip (l : List Char) : List Char :=
  ((l.dropWhile pySpace).reverse.dropWhile pySpace).reverse

/-- Python `str.lower()` at ASCII level, on one character. -/
def pyLowerChar (c : Char) : Char :=
  if 'A' ≤ c ∧ c ≤ 'Z' then Char.ofNat (c.toNat + 32) else c

/-- Python `str.lower()` at ASCII level, on the character list. -/
def pyLower (l : List Char) : List Char := l.map pyLowerChar

/-- Python `str.lower()` on a `String`. -/
def pyLowerS (s : String) : String := String.mk (pyLower s.toList)

/-- Python `str.strip()` on a `String`. -/
def pyStripS (s : String) : String := String.mk (pyStrip s.toList)

/-- Python truthiness of a `str`: true exactly when non-empty. -/
def pyTruthyS (s : String) : Bool := !s.toList.isEmpty

/-- Python `int(...)` on a string of decimal digits. -/
def pyIntL (l : List Char) : Nat :=
  l.foldl (fun n c => n * 10 + (c.toNat - '0'.toNat)) 0

/-- Python `str.split("-")` on the character list (the separator is a
single character, so the split is a simple fold). -/
def splitDash : List Char → List (List Char)
  | [] => [[]]
  | c :: t =>
    match splitDash t with
    | [] => [[]]
    | h :: r => if c = '-' then [] :: h :: r else (c :: h) :: r

/-!
### The reference-extraction regex

`matchBook` is the mandatory part
`^(\d*\s*[A-Za-z]+(?:\s[A-Za-z]+)*)`; it returns the captured group 1
together with the unconsumed rest.  `parseWords` is the loop
`(?:\s[A-Za-z]+)*`.  `matchTail` is the optional part
`(?:\s+(\d+)([ab])?(?:[:.](\d+(?:-\d+)?))?)?` returning the captured
chapter, side and verse groups.
-/

/-- The greedy loop for `(?:\s[A-Za-z]+)*`: repeatedly consume one
whitespace character followed by a non-empty run of letters.  Returns
the consumed prefix and the rest.  The structural `fuel` argument only
makes the recursion kernel-computable; every loop iteration consumes at
least two characters, so any `fuel` at least the length of the list is
enough, and `parseWords` is always invoked that way (see
`parseWordsF_parts` and the fuel-irrelevance lemma below). -/
def parseWordsF : Nat → List Char → List Char × List Char
  | _, [] => ([], [])
  | 0, l => ([], l)
  | fuel + 1, c :: rest =>
    if pySpace c then
      let ls := rest.takeWhile pyAlpha
      if ls.isEmpty then ([], c :: rest)
      else
        let pr := parseWordsF fuel (rest.dropWhile pyAlpha)
        (c :: (ls ++ pr.1), pr.2)
    else ([], c :: rest)

/-- `parseWordsF` with adequate fuel. -/
def parseWords (l : List Char) : List Char × List Char := parseWordsF l.length l

/-- `([ab])?`: an optional side letter. -/
def parseSide : List Char → Option Char × List Char
  | 'a' :: t => (some 'a', t)
  | 'b' :: t => (some 'b', t)
  | t => (none, t)

/-- `(?:[:.](\d+(?:-\d+)?))?`: the optional verse group.  Returns the
captured verse text (group 4) when the group matches. -/
def parseVerse : List Char → Option (List Char)
  | c :: t =>
    if c = ':' ∨ c = '.' then
      let v1 := t.takeWhile pyDigit
      if v1.isEmpty then none
      else
        match t.dropWhile pyDigit with
        | '-' :: t2 =>
          let v2 := t2.takeWhile pyDigit
          if v2.isEmpty then some v1 else some (v1 ++ '-' :: v2)
        | _ => some v1
    else none
  | [] => none

/-- The mandatory book group `(\d*\s*[A-Za-z]+(?:\s[A-Za-z]+)*)`:
greedy digits, greedy whitespace, then at least one letter, then the
word loop.  Returns the captured group 1 and the unconsumed rest, or
`none` when the whole regex fails to match (Python `re.match` returns
`None`). -/
def matchBook (l : List Char) : Option (List Char × List Char) :=
  let ds := l.takeWhile pyDigit
  let r1 := l.dropWhile pyDigit
  let ss := r1.takeWhile pySpace
  let r2 := r1.dropWhile pySpace
  let ls := r2.takeWhile pyAlpha
  let r3 := r2.dropWhile pyAlpha
  if ls.isEmpty then none
  else
    let pr := parseWords r3
    some (ds ++ ss ++ ls ++ pr.1, pr.2)

/-- The optional chapter/side/verse tail
`(?:\s+(\d+)([ab])?(?:[:.](\d+(?:-\d+)?))?)?`: returns the captured
groups 2, 3, 4 (all `none` when the optional group does not match). -/
def matchTail (r4 : List Char) : Option (List Char) × Option Char × Option (List Char) :=
  let sp := r4.takeWhile pySpace
  let t1 := r4.dropWhile pySpace
  if sp.isEmpty then (none, none, none)
  else
    let ch := t1.takeWhile pyDigit
    let t2 := t1.dropWhile pyDigit
    if ch.isEmpty then (none, none, none)
    else
      let pr := parseSide t2
      (some ch, pr.1, parseVerse pr.2)

/-- The result of the full regex match: captured groups 1-4. -/
structure RefMatch where
  g1 : List Char
  chapter : Option (List Char)
  side : Option Char
  verse : Option (List Char)
deriving Repr, DecidableEq

/-- `re.match` of the full reference regex against the input. -/
def matchRef (l : List Char) : Option RefMatch :=
  match matchBook l with
  | none => none
  | some (g1, r4) =>
    let t := matchTail r4
    some ⟨g1, t.1, t.2.1, t.2.2⟩

/-!
### The Canon Registry: `BibleBooks.bible_books`

Transcribed from src/helpers/helpers.py lines 168-691, in table order,
including the literal duplicate entries of the source (Colossians twice,
and the whole apocrypha block from Revelation to Epistle to the
Laodiceans twice).
-/

/-- One entry of the alias table: a canonical title and its
abbreviation list. -/
structure BookEntry where
  book : String
  abbreviations : List String
deriving Repr, DecidableEq

def BibleBooks.bible_books : List BookEntry := [
  BookEntry.mk "Genesis" ["Gen", "Ge", "Gn"],
  BookEntry.mk "Exodus" ["Exod", "Ex", "Exo"],
  BookEntry.mk "Leviticus" ["Lev", "Lv", "Le"],
  BookEntry.mk "Numbers" ["Num", "Nu", "Nm", "Nb"],
  BookEntry.mk "Deuteronomy" ["Deut", "Dt", "De"],
  BookEntry.mk "Joshua" ["Josh", "Jos", "Jsh"],
  BookEntry.mk "Judges" ["Judg", "Jdg", "Jdgs", "Jg"],
  BookEntry.mk "Ruth" ["Ruth", "Ru", "Rth"],
  BookEntry.mk "1 Samuel" ["1 Sam", "1 Sm", "1 Sa", "I Sam", "I Sa", "I Sm", "First Samuel", "First Sam"],
  BookEntry.mk "2 Samuel" ["2 Sam", "2 Sm", "2 Sa", "II Sam", "II Sa", "II Sm", "Second Samuel", "Second Sam"],
  BookEntry.mk "1 Kings" ["1 Kings", "1 Kgs", "1 Ki", "1Kgs", "1Kin", "1Ki", "1K", "I Kgs", "I Ki", "1st Kings",
    "1st Kgs", "First Kings", "First Kgs"],
  BookEntry.mk "2 Kings" ["2 Kings", "2 Kgs", "2 Ki", "2Kgs", "2Kin", "2Ki", "2K", "II Kgs", "II Ki", "2nd Kings",
    "2nd Kgs", "Second Kings", "Second Kgs"],
  BookEntry.mk "1 Chronicles" ["1 Chron", "1 Chr", "1 Ch", "1Chron", "1Chr", "1Ch", "I Chron", "I Chr", "I Ch",
    "1st Chronicles", "1st Chron", "First Chronicles", "First Chron"],
  BookEntry.mk "2 Chronicles" ["2 Chron", "2 Chr", "2 Ch", "2Chron", "2Chr", "2Ch", "II Chron", "II Chr", "II Ch",
    "2nd Chronicles", "2nd Chron", "Second Chronicles", "Second Chron"],
  BookEntry.mk "Ezra" ["Ez", "Ezr"],
  BookEntry.mk "Nehemiah" ["Neh", "Ne"],
  BookEntry.mk "Esther" ["Esth", "Est", "Es"],
  BookEntry.mk "Job" ["Jb"],
  BookEntry.mk "Psalms" ["Ps", "Psa", "Psm", "Pss", "Psalm", "Pslm"],
  BookEntry.mk "Proverbs" ["Prov", "Prv", "Pr", "Pro"],
  BookEntry.mk "Ecclesiastes" ["Eccles", "Eccle", "Eccl", "Ecc", "Qoheleth", "Qoh"],
  BookEntry.mk "Song of Songs" ["Song", "SoS", "Song of Solomon", "So", "Canticles", "Canticle of Canticles", "Cant"],
  BookEntry.mk "Isaiah" ["Isa", "Is"],
  BookEntry.mk "Jeremiah" ["Jer", "Je", "Jr"],
  BookEntry.mk "Lamentations" ["Lam", "La", "Lament"],
  BookEntry.mk "Ezekiel" ["Ezek", "Eze", "Ezk"],
  BookEntry.mk "Daniel" ["Dan", "Dn", "Da"],
  BookEntry.mk "Hosea" ["Hos", "Ho"],
  BookEntry.mk "Joel" ["Jl"],
  BookEntry.mk "Amos" ["Am"],
  BookEntry.mk "Obadiah" ["Obad", "Ob"],
  BookEntry.mk "Jonah" ["Jon", "Jnh"],
  BookEntry.mk "Micah" ["Mic", "Mc"],
  BookEntry.mk "Nahum" ["Nah", "Na"],
  BookEntry.mk "Habakkuk" ["Hab", "Hb"],
  BookEntry.mk "Zephaniah" ["Zeph", "Zep", "Zp"],
  BookEntry.mk "Haggai" ["Hag", "Hg"],
  BookEntry.mk "Zechariah" ["Zech", "Zec", "Zc"],
  BookEntry.mk "Malachi" ["Mal", "Ml"],
  BookEntry.mk "Matthew" ["Matt", "Mt"],
  BookEntry.mk "Mark" ["Mar", "Mk", "Mrk", "Mr"],
  BookEntry.mk "Luke" ["Lk", "L"],
  BookEntry.mk "John" ["Jn", "Jhn", "Joh"],
  BookEntry.mk "Acts" ["Ac", "Act"],
  BookEntry.mk "Romans" ["Rom", "Ro", "Rm"],
  BookEntry.mk "1 Corinthians" ["1 Cor", "1 Co", "I Cor", "I Co", "1Cor", "1Co", "I Corinthians", "1Corinthians",
    "1st Corinthians", "First Corinthians"],
  BookEntry.mk "2 Corinthians" ["2 Cor", "2 Co", "II Cor", "II Co", "2Cor", "2Co", "II Corinthians", "2Corinthians",
    "2nd Corinthians", "Second Corinthians"],
  BookEntry.mk "Galatians" ["Gal", "Ga"],
  BookEntry.mk "Ephesians" ["Eph", "Ep", "Ephes"],
  BookEntry.mk "Philippians" ["Phil", "Php", "Phl", "Pp"],
  BookEntry.mk "Colossians" ["Col", "Cl"],
  BookEntry.mk "Colossians" ["Col", "Cl"],
  BookEntry.mk "1 Thessalonians" ["1 Thess", "1 Thes", "1 Th", "I Thessalonians", "I Thess", "I Thes", "I Th",
    "1Thessalonians", "1Thess", "1Thes", "1Th", "1st Thessalonians", "1st Thess",
    "First Thessalonians", "First Thess"],
  BookEntry.mk "2 Thessalonians" ["2 Thess", "2 Thes", "2 Th", "II Thessalonians", "II Thess", "II Thes", "II Th",
    "2Thessalonians", "2Thess", "2Thes", "2Th", "2nd Thessalonians", "2nd Thess",
    "Second Thessalonians", "Second Thess"],
  BookEntry.mk "1 Timothy" ["1 Tim", "1 Ti", "I Timothy", "I Tim", "I Ti", "1Timothy", "1Tim", "1Ti", "1st Timothy",
    "1st Tim", "First Timothy", "First Tim"],
  BookEntry.mk "2 Timothy" ["2 Tim", "2 Ti", "II Timothy", "II Tim", "II Ti", "2Timothy", "2Tim", "2Ti",
    "2nd Timothy", "2nd Tim", "Second Timothy", "Second Tim"],
  BookEntry.mk "Titus" ["Titus", "Tit", "ti"],
  BookEntry.mk "Philemon" ["Philem", "Phm", "Pm"],
  BookEntry.mk "Hebrews" ["Heb"],
  BookEntry.mk "James" ["James", "Jas", "Jm"],
  BookEntry.mk "1 Peter" ["1 Pet", "1 Pe", "1 Pt", "1 P", "I Pet", "I Pt", "I Pe", "1Peter", "1Pet", "1Pe", "1Pt",
    "1P", "I Peter", "1st Peter", "First Peter"],
  BookEntry.mk "2 Peter" ["2 Pet", "2 Pe", "2 Pt", "2 P", "II Peter", "II Pet", "II Pt", "II Pe", "2Peter", "2Pet",
    "2Pe", "2Pt", "2P", "2nd Peter", "Second Peter"],
  BookEntry.mk "1 John" ["1 John", "1 Jhn", "1 Jn", "1 J", "1John", "1Jhn", "1Joh", "1Jn", "1Jo", "1J", "I John",
    "I Jhn", "I Joh", "I Jn", "I Jo", "1st John", "First John"],
  BookEntry.mk "2 John" ["2 John", "2 Jhn", "2 Jn", "2 J", "2John", "2Jhn", "2Joh", "2Jn", "2Jo", "2J", "II John",
    "II Jhn", "II Joh", "II Jn", "II Jo", "2nd John", "Second John"],
  BookEntry.mk "3 John" ["3 John", "3 Jhn", "3 Jn", "3 J", "3John", "3Jhn", "3Joh", "3Jn", "3Jo", "3J", "III John",
    "III Jhn", "III Joh", "III Jn", "III Jo", "3rd John", "Third John"],
  BookEntry.mk "Jude" ["Jude", "Jud", "Jd"],
  BookEntry.mk "Revelation" ["Rev", "Re", "The Revelation"],
  BookEntry.mk "Tobit" ["Tob", "Tb"],
  BookEntry.mk "Judith" ["Jth", "Jdth", "Jdt"],
  BookEntry.mk "Additions to Esther" ["Add Esth", "Add Es", "Rest of Esther", "The Rest of Esther", "AEs", "AddEsth"],
  BookEntry.mk "Wisdom of Solomon" ["Wisd of Sol", "Wisdom", "Wis", "Ws"],
  BookEntry.mk "Sirach" ["Sir", "Ecclesiasticus"],
  BookEntry.mk "Ecclesiasticus" ["Ecclus"],
  BookEntry.mk "Baruch" ["Bar"],
  BookEntry.mk "Letter of Jeremiah" ["Ep Jer", "Let Jer", "Ltr Jer", "LJe"],
  BookEntry.mk "Song of Three Youths" ["Sg of 3 Childr", "Song of Three", "Song of Thr", "Song Thr",
    "The Song of Three Youths", "The Song of the Three Holy Children", "Song of the Three Holy Children",
    "Song of Three Children", "The Song of Three Jews", "Song of Three Jews", "Prayer of Azariah",
    "Azariah", "Pr Az"],
  BookEntry.mk "Susanna" ["Sus"],
  BookEntry.mk "Bel and the Dragon" ["Bel"],
  BookEntry.mk "1 Maccabees" ["1 Macc", "1 Mac", "1Maccabees", "1Macc", "1Mac", "1Ma", "1M", "I Maccabees", "I Macc",
    "I Mac", "I Ma", "1st Maccabees", "First Maccabees"],
  BookEntry.mk "2 Maccabees" ["2 Macc", "2 Mac", "2Maccabees", "2Macc", "2Mac", "2Ma", "2M", "II Maccabees", "II Macc",
    "II Mac", "II Ma", "2nd Maccabees", "Second Maccabees"],
  BookEntry.mk "3 Maccabees" ["3 Macc", "3 Mac", "3Maccabees", "3Macc", "3Mac", "3Ma", "3M", "III Maccabees",
    "III Macc", "III Mac", "III Ma", "3rd Maccabees", "Third Maccabees"],
  BookEntry.mk "4 Maccabees" ["4 Macc", "4 Mac", "4Maccabees", "4Macc", "4Mac", "4Ma", "4M", "IV Maccabees", "IV Macc",
    "IV Mac", "IV Ma", "4th Maccabees", "Fourth Maccabees"],
  BookEntry.mk "1 Esdras" ["1 Esd", "1 Esdr", "1Esdras", "1Esdr", "1Esd", "1Es", "I Esdras", "I Esdr", "I Esd",
    "I Es", "1st Esdras", "First Esdras"],
  BookEntry.mk "2 Esdras" ["2 Esd", "2 Esdr", "2Esdras", "2Esdr", "2Esd", "2Es", "II Esdras", "II Esdr", "II Esd",
    "II Es", "2nd Esdras", "Second Esdras"],
  BookEntry.mk "Prayer of Manasseh" ["Pr of Man", "Pr of Man", "PMa", "Prayer of Manasses"],
  BookEntry.mk "Additional Psalm" ["Add Psalm", "Add Ps"],
  BookEntry.mk "Ode" ["Ode"],
  BookEntry.mk "Psalms of Solomon" ["Ps Solomon", "Ps Sol", "Psalms Solomon", "PsSol"],
  BookEntry.mk "Epistle to the Laodiceans" ["Ep Lao", "Epistle to Laodiceans", "Epistle Laodiceans",
    "Epist Laodiceans", "Ep Laod", "Laodiceans", "Laod"],
  BookEntry.mk "Revelation" ["Rev", "Re", "The Revelation"],
  BookEntry.mk "Tobit" ["Tob", "Tb"],
  BookEntry.mk "Judith" ["Jth", "Jdth", "Jdt"],
  BookEntry.mk "Additions to Esther" ["Add Esth", "Add Es", "Rest of Esther", "The Rest of Esther", "AEs", "AddEsth"],
  BookEntry.mk "Wisdom of Solomon" ["Wisd of Sol", "Wisdom", "Wis", "Ws"],
  BookEntry.mk "Sirach" ["Sir", "Ecclesiasticus"],
  BookEntry.mk "Ecclesiasticus" ["Ecclus"],
  BookEntry.mk "Baruch" ["Bar"],
  BookEntry.mk "Letter of Jeremiah" ["Ep Jer", "Let Jer", "Ltr Jer", "LJe"],
  BookEntry.mk "Song of Three Youths" ["Sg of 3 Childr", "Song of Three", "Song of Thr", "Song Thr",
    "The Song of Three Youths", "The Song of the Three Holy Children", "Song of the Three Holy Children",
    "Song of Three Children", "The Song of Three Jews", "Song of Three Jews", "Prayer of Azariah",
    "Azariah", "Pr Az"],
  BookEntry.mk "Susanna" ["Sus"],
  BookEntry.mk "Bel and the Dragon" ["Bel"],
  BookEntry.mk "1 Maccabees" ["1 Macc", "1 Mac", "1Maccabees", "1Macc", "1Mac", "1Ma", "1M", "I Maccabees", "I Macc",
    "I Mac", "I Ma", "1st Maccabees", "First Maccabees"],
  BookEntry.mk "2 Maccabees" ["2 Macc", "2 Mac", "2Maccabees", "2Macc", "2Mac", "2Ma", "2M", "II Maccabees", "II Macc",
    "II Mac", "II Ma", "2nd Maccabees", "Second Maccabees"],
  BookEntry.mk "3 Maccabees" ["3 Macc", "3 Mac", "3Maccabees", "3Macc", "3Mac", "3Ma", "3M", "III Maccabees",
    "III Macc", "III Mac", "III Ma", "3rd Maccabees", "Third Maccabees"],
  BookEntry.mk "4 Maccabees" ["4 Macc", "4 Mac", "4Maccabees", "4Macc", "4Mac", "4Ma", "4M", "IV Maccabees", "IV Macc",
    "IV Mac", "IV Ma", "4th Maccabees", "Fourth Maccabees"],
  BookEntry.mk "1 Esdras" ["1 Esd", "1 Esdr", "1Esdras", "1Esdr", "1Esd", "1Es", "I Esdras", "I Esdr", "I Esd",
    "I Es", "1st Esdras", "First Esdras"],
  BookEntry.mk "2 Esdras" ["2 Esd", "2 Esdr", "2Esdras", "2Esdr", "2Esd", "2Es", "II Esdras", "II Esdr", "II Esd",
    "II Es", "2nd Esdras", "Second Esdras"],
  BookEntry.mk "Prayer of Manasseh" ["Pr of Man", "Pr of Man", "PMa", "Prayer of Manasses"],
  BookEntry.mk "Additional Psalm" ["Add Psalm", "Add Ps"],
  BookEntry.mk "Ode" ["Ode"],
  BookEntry.mk "Psalms of Solomon" ["Ps Solomon", "Ps Sol", "Psalms Solomon", "PsSol"],
  BookEntry.mk "Epistle to the Laodiceans" ["Ep Lao", "Epistle to Laodiceans", "Epistle Laodiceans",
    "Epist Laodiceans", "Ep Laod", "Laodiceans", "Laod"]
]

/-- The loop test of `get_book_name`: the lowered reference occurs in
the lowered abbreviation list of the entry. -/
def aliasMatch (reference : String) (b : BookEntry) : Bool :=
  (b.abbreviations.map (fun a => pyLower a.toList)).contains (pyLower reference.toList)

/-- `BibleBooks.get_book_name` (helpers.py lines 129-140): scan the
table in order; on the first entry whose abbreviation list contains the
reference case-insensitively, return the stripped canonical title,
otherwise return the reference unchanged. -/
def BibleBooks.get_book_name (reference : String) : String :=
  match BibleBooks.bible_books.find? (aliasMatch reference) with
  | some b => pyStripS b.book
  | none => reference

/-- The dictionary returned by `extract_book_reference`. -/
structure ParsedReference where
  book : Option String
  chapter : Option String
  verse : Option String
  side : Option String
  reference : String
  valid : Bool
  large_reference : Bool
deriving Repr, DecidableEq

/-- The `large_reference` computation of `extract_book_reference`
(helpers.py lines 102-108) on the matched verse group: true when the
verse is absent; when the verse contains a dash, split on it, convert
both halves with `int` and compare the difference with 10.  The regex
shape of the verse group guarantees the split has exactly two parts;
any other shape would raise in Python and is mapped to `false` here
(the branch is unreachable from `matchRef` output). -/
def largeRef (verse : Option (List Char)) : Bool :=
  match verse with
  | none => true
  | some v =>
    if v.contains '-' then
      match splitDash v with
      | [a, b] => decide (((pyIntL b : Int) - (pyIntL a : Int)) > 10)
      | _ => false
    else false

/-- `BibleBooks.extract_book_reference` (helpers.py lines 60-127).
When the regex does not match, every component is `None`, `valid` and
`large_reference` stay `False`, and the reference string is the Python
f-string rendering of `None`, the literal `"None"`.  When it matches,
the book is resolved with `get_book_name` on the stripped group 1, and
the reference string appends chapter, side and verse gated on Python
truthiness. -/
def BibleBooks.extract_book_reference (user_input : String) : ParsedReference :=
  match matchRef user_input.toList with
  | none =>
    { book := none, chapter := none, verse := none, side := none,
      reference := "None", valid := false, large_reference := false }
  | some m =>
    let book : String := BibleBooks.get_book_name (String.mk (pyStrip m.g1))
    let chapter : Option String := m.chapter.map String.mk
    let side : Option String := m.side.map (fun c => String.mk [c])
    let verse : Option String := m.verse.map String.mk
    let valid : Bool := pyTruthyS book &&
      (match chapter with | some c => pyTruthyS c | none => false)
    let reference : String := book
      ++ (match chapter with | some c => if pyTruthyS c then " " ++ c else "" | none => "")
      ++ (match side with | some s => if pyTruthyS s then s else "" | none => "")
      ++ (match verse with | some v => if pyTruthyS v then ":" ++ v else "" | none => "")
    { book := some book, chapter := chapter, verse := verse, side := side,
      reference := reference, valid := valid, large_reference := largeRef m.verse }

/-- The stripped captured book token of an input, when the regex
matches: group 1 of the match, stripped — the string that
`extract_book_reference` hands to `get_book_name`. -/
def bookToken (input : String) : Option String :=
  (matchRef input.toList).map (fun m => String.mk (pyStrip m.g1))

/-!
### The Fuzzy Ranker: `MatchingHelpers.fuzzy_match_best_dicts`

(helpers.py lines 20-48.)  A Python dictionary with string keys and
values is an association list; `dict.get(field, "")` is `dictGet`.
`fuzzywuzzy.fuzz.ratio` is an external library, passed as the `ratio`
parameter.  `list.sort(key=..., reverse=True)` is a stable descending
sort by the key, modelled by `List.insertionSort` with the relation
comparing the key: a stable sort by a fixed key is extensionally
determined by the input order and the key.
-/

/-- A Python dict with string keys and values. -/
abbrev PyDict := List (String × String)

/-- Python `d.get(field, "")`. -/
def dictGet (d : PyDict) (k : String) : String :=
  match d.find? (fun p => p.1 == k) with
  | some p => p.2
  | none => ""

/-- The `total_score` loop of `fuzzy_match_best_dicts`: sum the ratio
over the zipped field/value pairs, skipping pairs whose value is
`None`. -/
def totalScore (ratio : String → String → Nat) (d : PyDict)
    (pairs : List (String × Option String)) : Nat :=
  pairs.foldl
    (fun acc fv =>
      match fv.2 with
      | none => acc
      | some v => acc + ratio (dictGet d fv.1) v) 0

/-- The `any(...)` test of `fuzzy_match_best_dicts`: some pair with a
non-`None` value scores at least the threshold. -/
def anyFieldMeets (ratio : String → String → Nat) (d : PyDict)
    (pairs : List (String × Option String)) (threshold : Nat) : Bool :=
  pairs.any
    (fun fv =>
      match fv.2 with
      | none => false
      | some v => threshold ≤ ratio (dictGet d fv.1) v)

/-- `MatchingHelpers.fuzzy_match_best_dicts` (helpers.py lines 20-48):
keep the dictionaries with positive total score and at least one
per-field score meeting the threshold, pair each with its total score,
stable-sort descending by score, return the dictionaries. -/
def MatchingHelpers.fuzzy_match_best_dicts (ratio : String → String → Nat)
    (data_list : List PyDict) (target_fields : List String)
    (target_values : List (Option String)) (threshold : Nat) : List PyDict :=
  let pairs := target_fields.zip target_values
  let kept := data_list.filterMap (fun d =>
    if 0 < totalScore ratio d pairs ∧ anyFieldMeets ratio d pairs threshold = true then
      some (d, totalScore ratio d pairs)
    else none)
  let sorted := kept.insertionSort (fun a b => b.2 ≤ a.2)
  sorted.map (fun m => m.1)

/-!
### The Keyword Scanner: `KeywordMessageParser.parse_message`

(keywordmessageparser.py lines 17-39; the tail of `parse_message`
dispatches each retained match to external HTTP fetchers, outside this
core.)  The scan pattern is `\b({keywords})\s+(\d+(?:\.\d+|:\d+)*)`
with the escaped titles joined as ordered alternatives; `re.finditer`
scans positions left to right, at each position tries the alternatives
in list order against the full pattern, and resumes after the end of a
match.  Both quantified tails are deterministic for the same reason as
the reference regex.
-/

/-- The greedy loop `(?:\.\d+|:\d+)*`: repeatedly consume a dot or
colon followed by a non-empty digit run.  Fuel as in `parseWordsF`. -/
def parseNumMoreF : Nat → List Char → List Char × List Char
  | _, [] => ([], [])
  | 0, l => ([], l)
  | fuel + 1, c :: rest =>
    if c = '.' ∨ c = ':' then
      let ds := rest.takeWhile pyDigit
      if ds.isEmpty then ([], c :: rest)
      else
        let pr := parseNumMoreF fuel (rest.dropWhile pyDigit)
        (c :: (ds ++ pr.1), pr.2)
    else ([], c :: rest)

/-- `parseNumMoreF` with adequate fuel. -/
def parseNumMore (l : List Char) : List Char × List Char := parseNumMoreF l.length l

/-- The captured group `(\d+(?:\.\d+|:\d+)*)`: a non-empty digit run
followed by the dot/colon loop.  Returns the captured text and the
rest, or `none` when no digit starts here. -/
def parseNumTail (l : List Char) : Option (List Char × List Char) :=
  let d1 := l.takeWhile pyDigit
  if d1.isEmpty then none
  else
    let pr := parseNumMore (l.dropWhile pyDigit)
    some (d1 ++ pr.1, pr.2)

/-- Try the pattern `(title)\s+(\d+(?:\.\d+|:\d+)*)` at the current
position: the alternatives are tried in list order, and the first
title for which the whole pattern matches wins (Python ordered
alternation).  Returns the matching title, the captured number tail
(group 2) and the unconsumed rest. -/
def matchTitleAt (titles : List String) (l : List Char) :
    Option (String × List Char × List Char) :=
  titles.findSome? (fun t =>
    if t.toList.isPrefixOf l then
      let r := l.drop t.toList.length
      let sp := r.takeWhile pySpace
      let r1 := r.dropWhile pySpace
      if sp.isEmpty then none
      else
        match parseNumTail r1 with
        | some (g2, rest) => some (t, g2, rest)
        | none => none
    else none)

/-- One `re.finditer` scan of the message: walk the positions left to
right; at a `\b` boundary (the wordness of the previous character
differs from that of the current one) try the alternation, and on a
match record `(start, title, group 2)` and resume after the match.
The character after a match is always a digit, hence a word character,
so the resumed scan carries `prevWord = true`.  Fuel as in
`parseWordsF`; each step consumes at least one character. -/
def scanAuxF (titles : List String) :
    Nat → List Char → Nat → Bool → List (Nat × String × List Char)
  | _, [], _, _ => []
  | 0, _, _, _ => []
  | fuel + 1, c :: rest, pos, prevWord =>
    if prevWord != pyWordChar c then
      match matchTitleAt titles (c :: rest) with
      | some (t, g2, after) =>
        (pos, t, g2) ::
          scanAuxF titles fuel after (pos + ((c :: rest).length - after.length)) true
      | none => scanAuxF titles fuel rest (pos + 1) (pyWordChar c)
    else scanAuxF titles fuel rest (pos + 1) (pyWordChar c)

/-- `scanAuxF` with adequate fuel, from the start of the message. -/
def scanMsg (titles : List String) (msg : List Char) : List (Nat × String × List Char) :=
  scanAuxF titles msg.length msg 0 false

/-- The match list one canon contributes in `parse_message`: each match
becomes `(match.start, tag, group1 ++ " " ++ group2)` — the stored text
is the f-string of the two captured groups. -/
def findCanonMatches (titles : List String) (tag : String) (msg : List Char) :
    List (Nat × String × String) :=
  (scanMsg titles msg).map (fun m => (m.1, tag, m.2.1 ++ " " ++ String.mk m.2.2))

/-- The filter regex `\d+[:.\s]\d+` of `re.search` on the stored match
text: some digit is followed by a colon, dot or whitespace character
followed by a digit (a digit adjacent to the separator on each side is
exactly what `\d+[:.\s]\d+` requires somewhere in the string). -/
def hasVerseSep : List Char → Bool
  | a :: b :: c :: t =>
    (pyDigit a && (b = ':' || b = '.' || pySpace b) && pyDigit c) || hasVerseSep (b :: c :: t)
  | _ => false

/-- The pure core of `KeywordMessageParser.parse_message`
(keywordmessageparser.py lines 17-39): scan the message once with the
Christian titles (tag `"biblegateway"`) and once with the
externally-supplied second-canon titles (tag `"sefaria"`), concatenate,
stable-sort ascending by match start, and drop every match whose text
does not contain a verse-level separator.  The remainder of
`parse_message` feeds each retained reference to an external text
fetcher and is outside this core. -/
def KeywordMessageParser.parse_message_matches (christian jewish : List String)
    (message : String) : List (Nat × String × String) :=
  let ms := message.toList
  let combined := findCanonMatches christian "biblegateway" ms
    ++ findCanonMatches jewish "sefaria" ms
  let sorted := combined.insertionSort (fun a b => a.1 ≤ b.1)
  sorted.filter (fun item => hasVerseSep item.2.2.toList)

/-- `BibleData.books` (src/sources/biblegateway.py lines 16-101): the
Christian-canon title tuple used as the keyword list of the scanner. -/
def BibleData.books : List String := [
  "Genesis", "Exodus", "Leviticus", "Numbers", "Deuteronomy", "Joshua", "Judges", "Ruth",
  "1 Samuel", "2 Samuel", "1 Kings", "2 Kings", "1 Chronicles", "2 Chronicles", "Ezra",
  "Nehemiah", "Esther", "Job", "Psalm", "Proverbs", "Ecclesiastes", "Song of Songs",
  "Isaiah", "Jeremiah", "Lamentations", "Ezekiel", "Daniel", "Hosea", "Joel", "Amos",
  "Obadiah", "Jonah", "Micah", "Nahum", "Habakkuk", "Zephaniah", "Haggai", "Zechariah",
  "Malachi", "Matthew", "Mark", "Luke", "John", "Acts", "Romans", "1 Corinthians",
  "2 Corinthians", "Galatians", "Ephesians", "Philippians", "Colossians",
  "1 Thessalonians", "2 Thessalonians", "1 Timothy", "2 Timothy", "Titus", "Philemon",
  "Hebrews", "James", "1 Peter", "2 Peter", "1 John", "2 John", "3 John", "Jude",
  "Revelation", "Tobit", "Judith", "Greek Esther", "Wisdom of Solomon", "Sirach",
  "Baruch", "Letter of Jeremiah", "Prayer of Azariah", "Susanna", "Bel and the Dragon",
  "1 Maccabees", "2 Maccabees", "1 Esdras", "Prayer of Manasseh", "Psalm 151",
  "3 Maccabees", "2 Esdras", "4 Maccabees"]

/-!
### `BibleBooks.convert_version` and the `versions` table

In the source (helpers.py lines 780-844), `versions` is declared inside
`@dataclass class BibleBooks` as an annotated field with a
`default_factory`:
`versions: dict[str, str] = field(default_factory=lambda: ...)`.
Python dataclass processing removes such a class attribute (a field
with a `default_factory` has no plain default), so the class object
carries no `versions` attribute; only instances receive one, assigned
in the generated constructor.  `convert_version` (lines 151-166) is a
classmethod whose body reads `cls.versions`, an attribute lookup on the
class object, and therefore raises `AttributeError` on every call,
before any dictionary logic runs.  The class-attribute lookup is
modelled as an `Option` that is `none`, the call result as an `Except`
whose error names the raised exception, and the dictionary logic the
body would run on a present attribute is kept in full in
`convert_version_body`.
-/

/-- The dictionary built by the `default_factory` lambda of the
`versions` field (helpers.py lines 780-844), as an ordered association
list (Python dicts preserve insertion order). -/
def versions_default_factory : List (String × String) := [
  ("KJ21", "21st Century King James Version (KJ21)"),
  ("ASV", "American Standard Version (ASV)"),
  ("AMP", "Amplified Bible (AMP)"),
  ("AMPC", "Amplified Bible, Classic Edition (AMPC)"),
  ("BRG", "BRG Bible (BRG)"),
  ("CSB", "Christian Standard Bible (CSB)"),
  ("CEB", "Common English Bible (CEB)"),
  ("CJB", "Complete Jewish Bible (CJB)"),
  ("CEV", "Contemporary English Version (CEV)"),
  ("DARBY", "Darby Translation (DARBY)"),
  ("DLNT", "Disciples’ Literal New Testament (DLNT)"),
  ("DRA", "Douay-Rheims 1899 American Edition (DRA)"),
  ("ERV", "Easy-to-Read Version (ERV)"),
  ("EASY", "EasyEnglish Bible (EASY)"),
  ("EHV", "Evangelical Heritage Version (EHV)"),
  ("ESV", "English Standard Version (ESV)"),
  ("ESVUK", "English Standard Version Anglicised (ESVUK)"),
  ("EXB", "Expanded Bible (EXB)"),
  ("GNV", "1599 Geneva Bible (GNV)"),
  ("GW", "GOD’S WORD Translation (GW)"),
  ("GNT", "Good News Translation (GNT)"),
  ("HCSB", "Holman Christian Standard Bible (HCSB)"),
  ("ICB", "International Children’s Bible (ICB)"),
  ("ISV", "International Standard Version (ISV)"),
  ("PHILLIPS", "J.B. Phillips New Testament (PHILLIPS)"),
  ("JUB", "Jubilee Bible 2000 (JUB)"),
  ("KJV", "King James Version (KJV)"),
  ("AKJV", "Authorized (King James) Version (AKJV)"),
  ("LSB", "Legacy Standard Bible (LSB)"),
  ("LEB", "Lexham English Bible (LEB)"),
  ("TLB", "Living Bible (TLB)"),
  ("MSG", "The Message (MSG)"),
  ("MEV", "Modern English Version (MEV)"),
  ("MOUNCE", "Mounce Reverse Interlinear New Testament (MOUNCE)"),
  ("NOG", "Names of God Bible (NOG)"),
  ("NABRE", "New American Bible (Revised Edition) (NABRE)"),
  ("NASB", "New American Standard Bible (NASB)"),
  ("NASB1995", "New American Standard Bible 1995 (NASB1995)"),
  ("NCB", "New Catholic Bible (NCB)"),
  ("NCV", "New Century Version (NCV)"),
  ("NET", "New English Translation (NET)"),
  ("NIRV", "New International Reader's Version (NIRV)"),
  ("NIV", "New International Version (NIV)"),
  ("NIVUK", "New International Version - UK (NIVUK)"),
  ("NKJV", "New King James Version (NKJV)"),
  ("NLV", "New Life Version (NLV)"),
  ("NLT", "New Living Translation (NLT)"),
  ("NMB", "New Matthew Bible (NMB)"),
  ("NRSVA", "New Revised Standard Version, Anglicised (NRSVA)"),
  ("NRSVACE", "New Revised Standard Version, Anglicised Catholic Edition (NRSVACE)"),
  ("NRSVCE", "New Revised Standard Version Catholic Edition (NRSVCE)"),
  ("NRSVUE", "New Revised Standard Version Updated Edition (NRSVUE)"),
  ("NTFE", "New Testament for Everyone (NTFE)"),
  ("OJB", "Orthodox Jewish Bible (OJB)"),
  ("RGT", "Revised Geneva Translation (RGT)"),
  ("RSV", "Revised Standard Version (RSV)"),
  ("RSVCE", "Revised Standard Version Catholic Edition (RSVCE)"),
  ("TLV", "Tree of Life Version (TLV)"),
  ("VOICE", "The Voice (VOICE)"),
  ("WEB", "World English Bible (WEB)"),
  ("WE", "Worldwide English (New Testament) (WE)"),
  ("WYC", "Wycliffe Bible (WYC)"),
  ("YLT", "Young's Literal Translation (YLT)")]

/-- The `versions` attribute of the class object `BibleBooks`: absent,
because dataclass processing deletes the class attribute of a field
declared with a `default_factory`. -/
def BibleBooks.classAttr_versions : Option (List (String × String)) := none

/-- The dictionary logic of the `convert_version` body, as it would run
on a present `versions` mapping: membership test by key and subscript
for the short-to-long direction, then a first-match scan over the items
comparing the lowered long names for the long-to-short direction,
`None` otherwise. -/
def convert_version_body (versions : List (String × String)) (version : String) :
    Option String :=
  if versions.any (fun p => p.1 == version) then
    (versions.find? (fun p => p.1 == version)).map (fun p => p.2)
  else
    match versions.find? (fun p => pyLowerS version == pyLowerS p.2) with
    | some p => some p.1
    | none => none

/-- `BibleBooks.convert_version` (helpers.py lines 151-166): the
classmethod first evaluates `cls.versions`; the attribute is absent on
the class object, so every call raises `AttributeError`. -/
def BibleBooks.convert_version (version : String) : Except String (Option String) :=
  match BibleBooks.classAttr_versions with
  | none => Except.error "AttributeError"
  | some versions => Except.ok (convert_version_body versions version)

/-- A concrete similarity function used to instantiate the `ratio`
parameter in witness theorems: 100 on equal strings, 0 otherwise. -/
def ratioExact (a b : String) : Nat := if a = b then 100 else 0

/-!
## Helper lemmas
-/

theorem string_toList_mk (l : List Char) : (String.mk l).toList = l := rfl

theorem string_mk_toList (s : String) : String.mk s.toList = s := by
  cases s
  rfl

theorem string_toList_inj {s t : String} (h : s.toList = t.toList) : s = t := by
  cases s
  cases t
  simp only [String.toList] at h
  rw [h]

theorem string_toList_append (s t : String) : (s ++ t).toList = s.toList ++ t.toList := by
  cases s
  cases t
  rfl

theorem takeWhile_append_of_head {p : Char → Bool} :
    ∀ {u w : List Char}, (∀ c ∈ u, p c = true) →
      (∀ c, w.head? = some c → p c = false) →
      (u ++ w).takeWhile p = u ∧ (u ++ w).dropWhile p = w
  | [], w, _, hy => by
    cases w with
    | nil => simp
    | cons y t => simp [List.takeWhile_cons, List.dropWhile_cons, hy y rfl]
  | x :: u, w, hx, hy => by
    have hpx : p x = true := hx x (List.mem_cons_self x u)
    have ih := takeWhile_append_of_head (p := p) (u := u) (w := w)
      (fun c hc => hx c (List.mem_cons_of_mem x hc)) hy
    simp [List.takeWhile_cons, List.dropWhile_cons, hpx, ih.1, ih.2]

theorem dropWhile_head_false {p : Char → Bool} :
    ∀ {l : List Char} {c : Char} {t : List Char}, l.dropWhile p = c :: t → p c = false
  | [], c, t, h => by simp at h
  | x :: xs, c, t, h => by
    by_cases hx : p x = true
    · rw [List.dropWhile_cons_of_pos hx] at h
      exact dropWhile_head_false h
    · rw [List.dropWhile_cons_of_neg hx] at h
      cases h
      simpa using hx

theorem parseWordsF_parts : ∀ (fuel : Nat) (l : List Char),
    (parseWordsF fuel l).1 ++ (parseWordsF fuel l).2 = l
  | _, [] => by simp [parseWordsF]
  | 0, _ :: _ => by simp [parseWordsF]
  | fuel + 1, c :: rest => by
    by_cases hs : pySpace c
    · by_cases he : (rest.takeWhile pyAlpha).isEmpty
      · simp [parseWordsF, hs, he]
      · have ih := parseWordsF_parts fuel (rest.dropWhile pyAlpha)
        simp [parseWordsF, hs, he, List.append_assoc, ih]
    · simp [parseWordsF, hs]

theorem parseWordsF_fuel : ∀ (f1 f2 : Nat) (l : List Char),
    l.length ≤ f1 → l.length ≤ f2 → parseWordsF f1 l = parseWordsF f2 l
  | _, _, [], _, _ => by simp [parseWordsF]
  | 0, _, c :: rest, h1, _ => by simp at h1
  | _ + 1, 0, c :: rest, _, h2 => by simp at h2
  | f1 + 1, f2 + 1, c :: rest, h1, h2 => by
    by_cases hs : pySpace c
    · by_cases he : (rest.takeWhile pyAlpha).isEmpty
      · simp [parseWordsF, hs, he]
      · have hd : (rest.dropWhile pyAlpha).length ≤ rest.length :=
          (List.dropWhile_suffix pyAlpha).length_le
        have ih := parseWordsF_fuel f1 f2 (rest.dropWhile pyAlpha)
          (le_trans hd (Nat.le_of_succ_le_succ (by simpa using h1)))
          (le_trans hd (Nat.le_of_succ_le_succ (by simpa using h2)))
        simp [parseWordsF, hs, he, ih]
    · simp [parseWordsF, hs]

theorem parseWords_parts (l : List Char) : (parseWords l).1 ++ (parseWords l).2 = l :=
  parseWordsF_parts l.length l

theorem parseNumMoreF_parts : ∀ (fuel : Nat) (l : List Char),
    (parseNumMoreF fuel l).1 ++ (parseNumMoreF fuel l).2 = l
  | _, [] => by simp [parseNumMoreF]
  | 0, _ :: _ => by simp [parseNumMoreF]
  | fuel + 1, c :: rest => by
    by_cases hs : c = '.' ∨ c = ':'
    · by_cases he : (rest.takeWhile pyDigit).isEmpty
      · simp [parseNumMoreF, hs, he]
      · have ih := parseNumMoreF_parts fuel (rest.dropWhile pyDigit)
        simp [parseNumMoreF, hs, he, List.append_assoc, ih]
    · simp [parseNumMoreF, hs]

theorem parseNumMore_parts (l : List Char) : (parseNumMore l).1 ++ (parseNumMore l).2 = l :=
  parseNumMoreF_parts l.length l

theorem totalScore_foldl_none {r : String → String → Nat} {d : PyDict} :
    ∀ (pairs : List (String × Option String)) (acc : Nat),
      (∀ fv ∈ pairs, fv.2 = none) →
      pairs.foldl
        (fun acc fv =>
          match fv.2 with
          | none => acc
          | some v => acc + r (dictGet d fv.1) v) acc = acc
  | [], _, _ => rfl
  | p :: t, acc, h => by
    have hp : p.2 = none := h p (List.mem_cons_self p t)
    rw [List.foldl_cons]
    have ht := totalScore_foldl_none (r := r) (d := d) t acc
      (fun fv hfv => h fv (List.mem_cons_of_mem p hfv))
    simpa [hp] using ht

theorem totalScore_of_all_none {ratio : String → String → Nat} {d : PyDict}
    {pairs : List (String × Option String)} (h : ∀ fv ∈ pairs, fv.2 = none) :
    totalScore ratio d pairs = 0 :=
  totalScore_foldl_none pairs 0 h

/-- C7: the spec says none of the core's pure functions throws, but
`BibleBooks.convert_version` raises `AttributeError` on every input:
`versions` is a dataclass field with a `default_factory`, so the class
object has no `versions` attribute and the classmethod's `cls.versions`
lookup fails before any of its lookup logic runs.  The function
documentation promises the converted name or `None`, so this is a
defect of the code, not of the claim. -/
theorem c7_convert_version_always_raises :
    BibleBooks.convert_version "KJV" = Except.error "AttributeError" ∧
    ∀ version : String, ∃ e : String, BibleBooks.convert_version version = Except.error e := by
  refine ⟨rfl, fun v => ⟨"AttributeError", rfl⟩⟩

/-- C10: when every target value is null, every field of every candidate
is skipped, each total score is zero, the positivity test fails and
`fuzzy_match_best_dicts` returns the empty list for every data list,
field list and threshold — so a caller supplying only null hints always
gets "no best match". -/
theorem c10_all_null_values_give_empty :
    ∀ (ratio : String → String → Nat) (data_list : List PyDict)
      (target_fields : List String) (target_values : List (Option String))
      (threshold : Nat),
      (∀ v ∈ target_values, v = none) →
      MatchingHelpers.fuzzy_match_best_dicts ratio data_list target_fields
        target_values threshold = [] := by
  intro ratio data_list target_fields target_values threshold hnull
  simp only [MatchingHelpers.fuzzy_match_best_dicts]
  have hkept : data_list.filterMap (fun d =>
      if 0 < totalScore ratio d (target_fields.zip target_values) ∧
          anyFieldMeets ratio d (target_fields.zip target_values) threshold = true then
        some (d, totalScore ratio d (target_fields.zip target_values))
      else none) = [] := by
    rw [List.filterMap_eq_nil_iff]
    intro d _
    have hz : totalScore ratio d (target_fields.zip target_values) = 0 :=
      totalScore_of_all_none (fun fv hfv => hnull fv.2 (List.of_mem_zip hfv).2)
    simp [hz]
  rw [hkept]
  rfl

/-- C10 witness: the shape of the `get_sefaria_text` call with an
unparsed book and no version or language hints. -/
theorem c10_witness :
    MatchingHelpers.fuzzy_match_best_dicts ratioExact [[("title", "Genesis")]]
      ["title", "versionTitle", "language"] [none, none, none] 80 = [] :=
  c10_all_null_values_give_empty ratioExact [[("title", "Genesis")]]
    ["title", "versionTitle", "language"] [none, none, none] 80 (by decide)

/-- C3: a candidate enters the result of `fuzzy_match_best_dicts` only
when its total score over the non-null target values is strictly
positive and some individual field scores at least the threshold; in
particular no candidate whose every per-field score is below the
threshold is ever returned, whatever its summed score. -/
theorem c3_inclusion_requires_threshold :
    ∀ (ratio : String → String → Nat) (data_list : List PyDict)
      (target_fields : List String) (target_values : List (Option String))
      (threshold : Nat) (d : PyDict),
      d ∈ MatchingHelpers.fuzzy_match_best_dicts ratio data_list target_fields
        target_values threshold →
      0 < totalScore ratio d (target_fields.zip target_values) ∧
      ∃ fv ∈ target_fields.zip target_values, ∃ v, fv.2 = some v ∧
        threshold ≤ ratio (dictGet d fv.1) v := by
  intro ratio data_list target_fields target_values threshold d hd
  simp only [MatchingHelpers.fuzzy_match_best_dicts] at hd
  rcases List.mem_map.mp hd with ⟨p, hp, hpd⟩
  have hp' := (List.mem_insertionSort _).mp hp
  rcases List.mem_filterMap.mp hp' with ⟨a, _, hfa⟩
  by_cases hcond : 0 < totalScore ratio a (target_fields.zip target_values) ∧
      anyFieldMeets ratio a (target_fields.zip target_values) threshold = true
  · rw [if_pos hcond] at hfa
    have hap : a = p.1 := by
      cases hfa
      rfl
    subst hpd
    rw [← hap]
    refine ⟨hcond.1, ?_⟩
    rcases List.any_eq_true.mp hcond.2 with ⟨fv, hfv, hmeets⟩
    refine ⟨fv, hfv, ?_⟩
    cases hv : fv.2 with
    | none => rw [hv] at hmeets; simp at hmeets
    | some v =>
      rw [hv] at hmeets
      exact ⟨v, rfl, of_decide_eq_true hmeets⟩
  · rw [if_neg hcond] at hfa
    cases hfa

/-- C3 witness: a concrete run with an exact-match scorer. -/
theorem c3_witness :
    [("title", "X")] ∈ MatchingHelpers.fuzzy_match_best_dicts ratioExact
      [[("title", "X")]] ["title"] [some "X"] 80 ∧
    (0 < totalScore ratioExact [("title", "X")] (["title"].zip [some "X"]) ∧
      ∃ fv ∈ ["title"].zip [some "X"], ∃ v, fv.2 = some v ∧
        80 ≤ ratioExact (dictGet [("title", "X")] fv.1) v) :=
  ⟨by decide,
    c3_inclusion_requires_threshold ratioExact [[("title", "X")]] ["title"]
      [some "X"] 80 [("title", "X")] (by decide)⟩

theorem filter_snd_orderedInsert (s : Nat) (a : PyDict × Nat) :
    ∀ l : List (PyDict × Nat),
      (l.orderedInsert (fun x y => y.2 ≤ x.2) a).filter (fun p => p.2 == s) =
        if a.2 == s then a :: l.filter (fun p => p.2 == s)
        else l.filter (fun p => p.2 == s)
  | [] => by
    by_cases ha : a.2 == s <;> simp [ha]
  | b :: t => by
    by_cases hr : b.2 ≤ a.2
    · by_cases ha : a.2 == s <;> by_cases hb : b.2 == s <;>
        simp [List.orderedInsert, hr, ha, hb]
    · have ih := filter_snd_orderedInsert s a t
      by_cases ha : a.2 == s
      · have hbs : (b.2 == s) = false := by
          have has : a.2 = s := by simpa using ha
          have : b.2 ≠ s := fun h => hr (by omega)
          simpa using this
        simp [List.orderedInsert, hr, ha, hbs, ih]
      · by_cases hb : b.2 == s <;> simp [List.orderedInsert, hr, ha, hb, ih]

theorem filter_snd_insertionSort (s : Nat) :
    ∀ l : List (PyDict × Nat),
      (l.insertionSort (fun x y => y.2 ≤ x.2)).filter (fun p => p.2 == s) =
        l.filter (fun p => p.2 == s)
  | [] => rfl
  | a :: t => by
    have ih := filter_snd_insertionSort s t
    have h := filter_snd_orderedInsert s a (t.insertionSort (fun x y => y.2 ≤ x.2))
    by_cases ha : a.2 == s <;> simp [List.insertionSort, h, ha, ih]

theorem map_fst_filterMap_if_sublist {α β : Type} (cond : α → Prop) [DecidablePred cond]
    (g : α → β) :
    ∀ l : List α,
      List.Sublist ((l.filterMap (fun d => if cond d then some (d, g d) else none)).map Prod.fst) l
  | [] => by simp
  | a :: t => by
    by_cases h : cond a
    · simpa [List.filterMap_cons, h] using
        (map_fst_filterMap_if_sublist cond g t).cons₂ a
    · simpa [List.filterMap_cons, h] using
        (map_fst_filterMap_if_sublist cond g t).cons a

/-- C8: the sequence returned by `fuzzy_match_best_dicts` is ordered
non-increasingly by total score, and for every score value the
candidates carrying that score form a sublist of the input list — the
stable descending sort keeps equal-score candidates in their input
order, and only the candidate dictionaries are returned. -/
theorem c8_sorted_and_stable :
    ∀ (ratio : String → String → Nat) (data_list : List PyDict)
      (target_fields : List String) (target_values : List (Option String))
      (threshold : Nat),
      List.Sorted
        (fun a b : PyDict =>
          totalScore ratio b (target_fields.zip target_values) ≤
            totalScore ratio a (target_fields.zip target_values))
        (MatchingHelpers.fuzzy_match_best_dicts ratio data_list target_fields
          target_values threshold) ∧
      ∀ s : Nat,
        List.Sublist
          ((MatchingHelpers.fuzzy_match_best_dicts ratio data_list target_fields
              target_values threshold).filter
            (fun d => totalScore ratio d (target_fields.zip target_values) == s))
          data_list := by
  intro ratio data_list target_fields target_values threshold
  simp only [MatchingHelpers.fuzzy_match_best_dicts]
  set pairs := target_fields.zip target_values with hpairs
  set kept := data_list.filterMap (fun d =>
    if 0 < totalScore ratio d pairs ∧ anyFieldMeets ratio d pairs threshold = true then
      some (d, totalScore ratio d pairs)
    else none) with hkept
  have hinv : ∀ p ∈ kept, p.2 = totalScore ratio p.1 pairs := by
    intro p hp
    rcases List.mem_filterMap.mp hp with ⟨a, _, hfa⟩
    by_cases hcond : 0 < totalScore ratio a pairs ∧
        anyFieldMeets ratio a pairs threshold = true
    · rw [if_pos hcond] at hfa
      cases hfa
      rfl
    · rw [if_neg hcond] at hfa
      cases hfa
  haveI htot : IsTotal (PyDict × Nat) (fun x y => y.2 ≤ x.2) :=
    ⟨fun a b => Nat.le_total b.2 a.2⟩
  haveI htrans : IsTrans (PyDict × Nat) (fun x y => y.2 ≤ x.2) :=
    ⟨fun _ _ _ hab hbc => le_trans hbc hab⟩
  set sorted := kept.insertionSort (fun x y => y.2 ≤ x.2) with hsorted
  have hs : List.Sorted (fun x y : PyDict × Nat => y.2 ≤ x.2) sorted :=
    List.sorted_insertionSort _ kept
  have hinv' : ∀ p ∈ sorted, p.2 = totalScore ratio p.1 pairs := by
    intro p hp
    exact hinv p ((List.mem_insertionSort _).mp hp)
  constructor
  · rw [List.Sorted, List.pairwise_map]
    refine hs.imp_of_mem ?_
    intro a b ha hb hab
    rw [← hinv' a ha, ← hinv' b hb]
    exact hab
  · intro s
    have h1 : (sorted.map Prod.fst).filter (fun d => totalScore ratio d pairs == s) =
        (sorted.filter (fun p => p.2 == s)).map Prod.fst := by
      rw [List.filter_map]
      congr 1
      refine List.filter_congr ?_
      intro p hp
      simp only [Function.comp]
      rw [hinv' p hp]
    rw [h1, hsorted, filter_snd_insertionSort]
    refine List.Sublist.trans ((List.filter_sublist kept).map Prod.fst) ?_
    rw [hkept]
    exact map_fst_filterMap_if_sublist _ _ data_list

/-- C8 witness: a concrete instance of the ordering half. -/
theorem c8_witness :
    List.Sorted
      (fun a b : PyDict =>
        totalScore ratioExact b (["title"].zip [some "X"]) ≤
          totalScore ratioExact a (["title"].zip [some "X"]))
      (MatchingHelpers.fuzzy_match_best_dicts ratioExact
        [[("title", "X")], [("title", "Y")]] ["title"] [some "X"] 80) :=
  (c8_sorted_and_stable ratioExact [[("title", "X")], [("title", "Y")]]
    ["title"] [some "X"] 80).1

theorem matchTitleAt_sound {titles : List String} {l : List Char} {t : String}
    {g2 after : List Char} (h : matchTitleAt titles l = some (t, g2, after)) :
    t ∈ titles ∧ t.toList <+: l ∧ after <:+ l := by
  rcases List.exists_of_findSome?_eq_some h with ⟨a, ha, hfa⟩
  by_cases hpre : a.toList.isPrefixOf l
  · rw [if_pos hpre] at hfa
    by_cases hsp : ((l.drop a.toList.length).takeWhile pySpace).isEmpty
    · rw [if_pos hsp] at hfa
      cases hfa
    · rw [if_neg hsp] at hfa
      cases hnt : parseNumTail ((l.drop a.toList.length).dropWhile pySpace) with
      | none => rw [hnt] at hfa; cases hfa
      | some pr =>
        rw [hnt] at hfa
        obtain ⟨g2', rest'⟩ := pr
        cases hfa
        refine ⟨ha, List.isPrefixOf_iff_prefix.mp hpre, ?_⟩
        have h1 : after <:+ (l.drop t.toList.length).dropWhile pySpace := by
          simp only [parseNumTail] at hnt
          by_cases hd1 : (((l.drop t.toList.length).dropWhile pySpace).takeWhile
              pyDigit).isEmpty
          · rw [if_pos hd1] at hnt
            cases hnt
          · rw [if_neg hd1] at hnt
            cases hnt
            refine List.IsSuffix.trans ?_
              (List.dropWhile_suffix (l := (l.drop t.toList.length).dropWhile pySpace)
                pyDigit)
            exact ⟨(parseNumMore (((l.drop t.toList.length).dropWhile pySpace).dropWhile
              pyDigit)).1, parseNumMore_parts _⟩
        exact List.IsSuffix.trans
          (List.IsSuffix.trans h1 (List.dropWhile_suffix pySpace))
          (List.drop_suffix _ l)
  · rw [if_neg hpre] at hfa
    cases hfa

theorem scanAuxF_sound (titles : List String) (full : List Char) :
    ∀ (fuel : Nat) (l : List Char) (pos : Nat) (prev : Bool),
      l = full.drop pos →
      ∀ x ∈ scanAuxF titles fuel l pos prev,
        x.2.1 ∈ titles ∧ x.2.1.toList <+: full.drop x.1
  | 0, l, pos, prev, _, x, hx => by
    cases l <;> simp [scanAuxF] at hx
  | fuel + 1, [], pos, prev, _, x, hx => by simp [scanAuxF] at hx
  | fuel + 1, c :: rest, pos, prev, hl, x, hx => by
    rw [scanAuxF] at hx
    by_cases hb : (prev != pyWordChar c) = true
    · rw [if_pos hb] at hx
      cases hm : matchTitleAt titles (c :: rest) with
      | none =>
        rw [hm] at hx
        have hrest : rest = full.drop (pos + 1) := by
          rw [← List.drop_drop, ← hl]
          rfl
        exact scanAuxF_sound titles full fuel rest (pos + 1) (pyWordChar c) hrest x hx
      | some pr =>
        obtain ⟨t, g2, after⟩ := pr
        rw [hm] at hx
        rcases List.mem_cons.mp hx with hx1 | hx2
        · subst hx1
          have hs := matchTitleAt_sound hm
          exact ⟨hs.1, by rw [← hl]; exact hs.2.1⟩
        · have hsuf := (matchTitleAt_sound hm).2.2
          rcases hsuf with ⟨s, hs⟩
          have hlen : (c :: rest).length - after.length = s.length := by
            have := congrArg List.length hs
            simp only [List.length_append] at this
            omega
          have hafter : after = full.drop (pos + ((c :: rest).length - after.length)) := by
            rw [hlen, ← List.drop_drop, ← hl, ← hs, List.drop_left]
          exact scanAuxF_sound titles full fuel after
            (pos + ((c :: rest).length - after.length)) true hafter x hx2
    · rw [if_neg hb] at hx
      have hrest : rest = full.drop (pos + 1) := by
        rw [← List.drop_drop, ← hl]
        rfl
      exact scanAuxF_sound titles full fuel rest (pos + 1) (pyWordChar c) hrest x hx

/-- C4: every match the keyword scanner retains has a verse-level
separator (a digit, then a colon, dot or whitespace, then a digit) in
its stored text, so bare chapter references are dropped; and on the
message "Please read John 3:16 and also Genesis." the scan against the
Christian canon titles and any second-canon title list that matches
nothing in this message retains exactly one match, tagged
`"biblegateway"`, at position 12, the offset of "John". -/
theorem c4_drops_verseless_matches :
    (∀ (christian jewish : List String) (message : String)
        (x : Nat × String × String),
        x ∈ KeywordMessageParser.parse_message_matches christian jewish message →
        hasVerseSep x.2.2.toList = true) ∧
    ∀ jewish : List String,
      findCanonMatches jewish "sefaria"
        ("Please read John 3:16 and also Genesis.".toList) = [] →
      KeywordMessageParser.parse_message_matches BibleData.books jewish
        "Please read John 3:16 and also Genesis." =
        [(12, "biblegateway", "John 3:16")] := by
  constructor
  · intro christian jewish message x hx
    simp only [KeywordMessageParser.parse_message_matches] at hx
    exact (List.mem_filter.mp hx).2
  · intro jewish hj
    simp only [KeywordMessageParser.parse_message_matches]
    rw [hj]
    decide

/-- C4 witness: the example message with an empty second-canon list. -/
theorem c4_witness :
    hasVerseSep ("John 3:16".toList) = true ∧
    KeywordMessageParser.parse_message_matches BibleData.books []
      "Please read John 3:16 and also Genesis." =
      [(12, "biblegateway", "John 3:16")] :=
  ⟨c4_drops_verseless_matches.1 BibleData.books []
      "Please read John 3:16 and also Genesis." (12, "biblegateway", "John 3:16")
      (by decide),
    c4_drops_verseless_matches.2 [] (by decide)⟩

/-- C5: the retained matches are ordered by ascending character offset
of the match start in the message (the two canons interleaved in
source-text order), and every match carries its owning canon tag
(`"biblegateway"` for the Christian list, `"sefaria"` for the second
list) together with the matched title and chapter/verse text, the title
occurring in the message at the recorded offset. -/
theorem c5_merge_order_and_tags :
    ∀ (christian jewish : List String) (message : String),
      List.Sorted (fun a b : Nat × String × String => a.1 ≤ b.1)
        (KeywordMessageParser.parse_message_matches christian jewish message) ∧
      ∀ x ∈ KeywordMessageParser.parse_message_matches christian jewish message,
        (x.2.1 = "biblegateway" ∧ ∃ t g2, t ∈ christian ∧
          x.2.2 = t ++ " " ++ String.mk g2 ∧
          t.toList <+: message.toList.drop x.1) ∨
        (x.2.1 = "sefaria" ∧ ∃ t g2, t ∈ jewish ∧
          x.2.2 = t ++ " " ++ String.mk g2 ∧
          t.toList <+: message.toList.drop x.1) := by
  intro christian jewish message
  simp only [KeywordMessageParser.parse_message_matches]
  haveI htot : IsTotal (Nat × String × String) (fun a b => a.1 ≤ b.1) :=
    ⟨fun a b => Nat.le_total a.1 b.1⟩
  haveI htrans : IsTrans (Nat × String × String) (fun a b => a.1 ≤ b.1) :=
    ⟨fun _ _ _ hab hbc => le_trans hab hbc⟩
  constructor
  · exact (List.sorted_insertionSort _ _).filter _
  · intro x hx
    have hx1 := (List.mem_filter.mp hx).1
    have hx2 := (List.mem_insertionSort _).mp hx1
    rcases List.mem_append.mp hx2 with hc | hj
    · left
      rcases List.mem_map.mp hc with ⟨m, hm, hxm⟩
      have hs := scanAuxF_sound christian message.toList message.toList.length
        message.toList 0 false rfl m hm
      subst hxm
      exact ⟨rfl, m.2.1, m.2.2, hs.1, rfl, hs.2⟩
    · right
      rcases List.mem_map.mp hj with ⟨m, hm, hxm⟩
      have hs := scanAuxF_sound jewish message.toList message.toList.length
        message.toList 0 false rfl m hm
      subst hxm
      exact ⟨rfl, m.2.1, m.2.2, hs.1, rfl, hs.2⟩

/-- C5 witness: the canon tag, stored text and offset of the one match
of the example message. -/
theorem c5_witness :
    ((12, "biblegateway", "John 3:16") : Nat × String × String).2.1 = "biblegateway" ∧
      (∃ t g2, t ∈ BibleData.books ∧
        ("John 3:16" : String) = t ++ " " ++ String.mk g2 ∧
        t.toList <+: ("Please read John 3:16 and also Genesis.".toList.drop 12)) ∨
    ((12, "biblegateway", "John 3:16") : Nat × String × String).2.1 = "sefaria" ∧
      (∃ t g2, t ∈ ([] : List String) ∧
        ("John 3:16" : String) = t ++ " " ++ String.mk g2 ∧
        t.toList <+: ("Please read John 3:16 and also Genesis.".toList.drop 12)) := by
  have h := (c5_merge_order_and_tags BibleData.books []
    "Please read John 3:16 and also Genesis.").2
    (12, "biblegateway", "John 3:16") (by decide)
  rcases h with ⟨h1, h2⟩ | ⟨h1, h2⟩
  · exact Or.inl ⟨h1, h2⟩
  · exact Or.inr ⟨h1, h2⟩

theorem pySpace_cases {c : Char} (h : pySpace c = true) :
    c = ' ' ∨ c = '\t' ∨ c = '\n' ∨ c = '\r' ∨ c = '\u000B' ∨ c = '\u000C' := by
  have h2 := h
  simp only [pySpace, Bool.or_eq_true, decide_eq_true_eq] at h2
  tauto

theorem pyAlpha_not_pySpace {c : Char} (h : pyAlpha c = true) : pySpace c = false := by
  cases hs : pySpace c
  · rfl
  · rcases pySpace_cases hs with rfl | rfl | rfl | rfl | rfl | rfl <;>
      exact absurd h (by decide)

theorem pyDigit_not_pySpace {c : Char} (h : pyDigit c = true) : pySpace c = false := by
  cases hs : pySpace c
  · rfl
  · rcases pySpace_cases hs with rfl | rfl | rfl | rfl | rfl | rfl <;>
      exact absurd h (by decide)

theorem pyDigit_not_pyAlpha {c : Char} (h : pyDigit c = true) : pyAlpha c = false := by
  simp only [pyDigit, Char.isDigit, Bool.and_eq_true, decide_eq_true_eq] at h
  simp only [pyAlpha, Char.isAlpha, Char.isUpper, Char.isLower, Bool.or_eq_false_iff,
    Bool.and_eq_false_iff, decide_eq_false_iff_not]
  simp only [ge_iff_le, UInt32.le_def, BitVec.le_def,
    show ((48 : UInt32)).toBitVec.toNat = 48 from rfl,
    show ((57 : UInt32)).toBitVec.toNat = 57 from rfl,
    show ((65 : UInt32)).toBitVec.toNat = 65 from rfl,
    show ((90 : UInt32)).toBitVec.toNat = 90 from rfl,
    show ((97 : UInt32)).toBitVec.toNat = 97 from rfl,
    show ((122 : UInt32)).toBitVec.toNat = 122 from rfl] at h ⊢
  omega

theorem pyAlpha_not_pyDigit {c : Char} (h : pyAlpha c = true) : pyDigit c = false := by
  cases hd : pyDigit c
  · rfl
  · rw [pyDigit_not_pyAlpha hd] at h
    cases h

theorem pyStrip_ne_nil {l : List Char} (h : ∃ c ∈ l, pySpace c = false) :
    pyStrip l ≠ [] := by
  intro hnil
  rcases h with ⟨c, hcl, hcs⟩
  have h1 : ((l.dropWhile pySpace).reverse.dropWhile pySpace) = [] := by
    simpa [pyStrip, List.reverse_eq_nil_iff] using hnil
  have h2 : ∀ a ∈ l.dropWhile pySpace, pySpace a = true := by
    intro a ha
    exact List.dropWhile_eq_nil_iff.mp h1 a (List.mem_reverse.mpr ha)
  have h3 : ∀ a ∈ l, pySpace a = true := by
    intro a ha
    rw [← List.takeWhile_append_dropWhile (p := pySpace) (l := l)] at ha
    rcases List.mem_append.mp ha with h4 | h4
    · exact List.mem_takeWhile_imp h4
    · exact h2 a h4
  rw [h3 c hcl] at hcs
  cases hcs

theorem matchRef_inv {l : List Char} {m : RefMatch} (h : matchRef l = some m) :
    ∃ r4,
      matchBook l = some (m.g1, r4) ∧
      m.chapter = (matchTail r4).1 ∧
      m.side = (matchTail r4).2.1 ∧
      m.verse = (matchTail r4).2.2 := by
  unfold matchRef at h
  cases hb : matchBook l with
  | none => rw [hb] at h; cases h
  | some pr =>
    obtain ⟨g1, r4⟩ := pr
    rw [hb] at h
    cases h
    exact ⟨r4, rfl, rfl, rfl, rfl⟩

theorem matchBook_inv {l : List Char} {g1 r4 : List Char}
    (h : matchBook l = some (g1, r4)) :
    g1 = l.takeWhile pyDigit ++ (l.dropWhile pyDigit).takeWhile pySpace ++
      ((l.dropWhile pyDigit).dropWhile pySpace).takeWhile pyAlpha ++
      (parseWords (((l.dropWhile pyDigit).dropWhile pySpace).dropWhile pyAlpha)).1 ∧
    r4 = (parseWords (((l.dropWhile pyDigit).dropWhile pySpace).dropWhile pyAlpha)).2 ∧
    ((l.dropWhile pyDigit).dropWhile pySpace).takeWhile pyAlpha ≠ [] := by
  unfold matchBook at h
  by_cases he : (((l.dropWhile pyDigit).dropWhile pySpace).takeWhile pyAlpha).isEmpty
  · rw [if_pos he] at h
    cases h
  · rw [if_neg he] at h
    cases h
    refine ⟨rfl, rfl, ?_⟩
    simpa [List.isEmpty_iff] using he

theorem matchTail_chapter {r4 ch : List Char} (h : (matchTail r4).1 = some ch) :
    ch = ((r4.dropWhile pySpace).takeWhile pyDigit) ∧ ch ≠ [] ∧
      ∀ c ∈ ch, pyDigit c = true := by
  unfold matchTail at h
  by_cases h1 : (r4.takeWhile pySpace).isEmpty
  · rw [if_pos h1] at h
    cases h
  · rw [if_neg h1] at h
    by_cases h2 : ((r4.dropWhile pySpace).takeWhile pyDigit).isEmpty
    · rw [if_pos h2] at h
      cases h
    · rw [if_neg h2] at h
      cases h
      refine ⟨rfl, by simpa [List.isEmpty_iff] using h2, ?_⟩
      intro c hc
      exact List.mem_takeWhile_imp hc

theorem matchRef_strip_ne_nil {l : List Char} {m : RefMatch}
    (h : matchRef l = some m) : pyStrip m.g1 ≠ [] := by
  rcases matchRef_inv h with ⟨r4, hb, _, _, _⟩
  rcases matchBook_inv hb with ⟨hg1, _, hls⟩
  rcases List.exists_mem_of_ne_nil _ hls with ⟨c, hc⟩
  have hca : pyAlpha c = true := List.mem_takeWhile_imp hc
  refine pyStrip_ne_nil ⟨c, ?_, pyAlpha_not_pySpace hca⟩
  rw [hg1]
  simp only [List.append_assoc, List.mem_append]
  exact Or.inr (Or.inr (Or.inl hc))

theorem extract_book_of_match {input : String} {m : RefMatch}
    (h : matchRef input.toList = some m) :
    (BibleBooks.extract_book_reference input).book =
      some (BibleBooks.get_book_name (String.mk (pyStrip m.g1))) := by
  simp only [BibleBooks.extract_book_reference, h]

theorem extract_chapter_of_match {input : String} {m : RefMatch}
    (h : matchRef input.toList = some m) :
    (BibleBooks.extract_book_reference input).chapter = m.chapter.map String.mk := by
  simp only [BibleBooks.extract_book_reference, h]

theorem extract_verse_of_match {input : String} {m : RefMatch}
    (h : matchRef input.toList = some m) :
    (BibleBooks.extract_book_reference input).verse = m.verse.map String.mk := by
  simp only [BibleBooks.extract_book_reference, h]

theorem extract_side_of_match {input : String} {m : RefMatch}
    (h : matchRef input.toList = some m) :
    (BibleBooks.extract_book_reference input).side =
      m.side.map (fun c => String.mk [c]) := by
  simp only [BibleBooks.extract_book_reference, h]

theorem extract_valid_of_match {input : String} {m : RefMatch}
    (h : matchRef input.toList = some m) :
    (BibleBooks.extract_book_reference input).valid =
      (pyTruthyS (BibleBooks.get_book_name (String.mk (pyStrip m.g1))) &&
        (match m.chapter.map String.mk with
          | some c => pyTruthyS c
          | none => false)) := by
  simp only [BibleBooks.extract_book_reference, h]

theorem extract_large_of_match {input : String} {m : RefMatch}
    (h : matchRef input.toList = some m) :
    (BibleBooks.extract_book_reference input).large_reference = largeRef m.verse := by
  simp only [BibleBooks.extract_book_reference, h]

theorem extract_of_no_match {input : String} (h : matchRef input.toList = none) :
    BibleBooks.extract_book_reference input =
      { book := none, chapter := none, verse := none, side := none,
        reference := "None", valid := false, large_reference := false } := by
  simp only [BibleBooks.extract_book_reference, h]

theorem book_titles_ne_nil :
    ∀ e ∈ BibleBooks.bible_books, (pyStripS e.book).toList ≠ [] := by decide

theorem get_book_name_ne_nil {t : String} (ht : t.toList ≠ []) :
    (BibleBooks.get_book_name t).toList ≠ [] := by
  unfold BibleBooks.get_book_name
  cases hf : BibleBooks.bible_books.find? (aliasMatch t) with
  | none => exact ht
  | some e => exact book_titles_ne_nil e (List.mem_of_find?_eq_some hf)

theorem pyTruthyS_of_ne_nil {s : String} (h : s.toList ≠ []) : pyTruthyS s = true := by
  simp only [pyTruthyS, Bool.not_eq_true', List.isEmpty_eq_false]
  exact h

/-- C1 counterexample: the claim says an unresolved book token yields
`valid = False` even when a chapter follows, but on `"Foo 3"` the token
`"Foo"` matches no alias and the code still sets `valid = True`. -/
theorem c1_counterexample :
    (BibleBooks.extract_book_reference "Foo 3").book = some "Foo" ∧
    BibleBooks.bible_books.find? (aliasMatch "Foo") = none ∧
    (BibleBooks.extract_book_reference "Foo 3").chapter = some "3" ∧
    (BibleBooks.extract_book_reference "Foo 3").valid = true := by
  refine ⟨by decide, by decide, by decide, by decide⟩

/-- C1 (amended): extraction never fails on an unresolvable book token —
the raw stripped token is returned unchanged as `book` — but `valid`
does not consult the alias table: whenever a book-like token matched,
`valid` is true exactly when a chapter is present, so an unresolved
book token followed by a chapter number yields `valid = True`, not
`False` as the claim states. -/
theorem c1_amended :
    ∀ (input t : String), bookToken input = some t →
      (BibleBooks.bible_books.find? (aliasMatch t) = none →
        (BibleBooks.extract_book_reference input).book = some t) ∧
      ((BibleBooks.extract_book_reference input).valid = true ↔
        (BibleBooks.extract_book_reference input).chapter ≠ none) := by
  intro input t h
  rcases Option.map_eq_some'.mp h with ⟨m, hm, ht⟩
  constructor
  · intro hf
    rw [extract_book_of_match hm, ← ht]
    unfold BibleBooks.get_book_name
    rw [← ht] at hf
    rw [hf]
  · have hbook : pyTruthyS (BibleBooks.get_book_name (String.mk (pyStrip m.g1))) = true := by
      refine pyTruthyS_of_ne_nil (get_book_name_ne_nil ?_)
      rw [string_toList_mk]
      exact matchRef_strip_ne_nil hm
    rw [extract_valid_of_match hm, extract_chapter_of_match hm]
    cases hch : m.chapter with
    | none => simp
    | some ch =>
      rcases matchRef_inv hm with ⟨r4, _, hc, _, _⟩
      rw [hch] at hc
      rcases matchTail_chapter hc.symm with ⟨_, hne, _⟩
      have htr : pyTruthyS (String.mk ch) = true := by
        refine pyTruthyS_of_ne_nil ?_
        rw [string_toList_mk]
        exact hne
      simp [Option.map, hbook, htr]

/-- C1 witness: an unresolved token with a chapter. -/
theorem c1_witness :
    (BibleBooks.extract_book_reference "Zzz 4").book = some "Zzz" ∧
    (BibleBooks.extract_book_reference "Zzz 4").valid = true :=
  ⟨(c1_amended "Zzz 4" "Zzz" (by decide)).1 (by decide),
    (c1_amended "Zzz 4" "Zzz" (by decide)).2.mpr (by decide)⟩

theorem find?_congr_pred {α : Type} {p q : α → Bool} (h : ∀ a, p a = q a) :
    ∀ l : List α, l.find? p = l.find? q
  | [] => rfl
  | a :: t => by
    rw [List.find?_cons, List.find?_cons, h a, find?_congr_pred h t]

theorem aliasMatch_congr {t t' : String} (h : pyLower t.toList = pyLower t'.toList)
    (b : BookEntry) : aliasMatch t b = aliasMatch t' b := by
  simp only [aliasMatch, h]

/-- C9: when the stripped leading book token matches a table alias
case-insensitively, the extracted `book` is exactly the canonical title
of the first matching entry (whose stored titles the code strips — a
no-op on every entry of the table), and the table lookup depends only
on the lowered token, so the result is independent of the input casing;
in particular "GEN 1:1" and "gen 1:1" both resolve to "Genesis". -/
theorem c9_alias_resolution :
    (∀ (input t : String) (e : BookEntry), bookToken input = some t →
      BibleBooks.bible_books.find? (aliasMatch t) = some e →
      (BibleBooks.extract_book_reference input).book = some (pyStripS e.book)) ∧
    (∀ e ∈ BibleBooks.bible_books, pyStripS e.book = e.book) ∧
    (∀ t t' : String, pyLower t.toList = pyLower t'.toList →
      BibleBooks.bible_books.find? (aliasMatch t) =
        BibleBooks.bible_books.find? (aliasMatch t')) ∧
    (BibleBooks.extract_book_reference "GEN 1:1").book = some "Genesis" ∧
    (BibleBooks.extract_book_reference "gen 1:1").book = some "Genesis" := by
  refine ⟨?_, by decide, ?_, by decide, by decide⟩
  · intro input t e h hf
    rcases Option.map_eq_some'.mp h with ⟨m, hm, ht⟩
    subst ht
    rw [extract_book_of_match hm]
    unfold BibleBooks.get_book_name
    rw [hf]
  · intro t t' h
    exact find?_congr_pred (aliasMatch_congr h) BibleBooks.bible_books

/-- C9 witness: the token "GEN" resolves through the Genesis entry. -/
theorem c9_witness :
    (BibleBooks.extract_book_reference "GEN 1:1").book =
      some (pyStripS (BookEntry.mk "Genesis" ["Gen", "Ge", "Gn"]).book) :=
  c9_alias_resolution.1 "GEN 1:1" "GEN" (BookEntry.mk "Genesis" ["Gen", "Ge", "Gn"])
    (by decide) (by decide)

theorem digits_no_dash {l : List Char} (h : ∀ c ∈ l, pyDigit c = true) : '-' ∉ l :=
  fun hm => absurd (h '-' hm) (by decide)

theorem splitDash_no_dash : ∀ {l : List Char}, '-' ∉ l → splitDash l = [l]
  | [], _ => rfl
  | c :: t, h => by
    have hc : ¬(c = '-') := fun hh => h (hh ▸ List.mem_cons_self c t)
    have ih := splitDash_no_dash (l := t) (fun hm => h (List.mem_cons_of_mem c hm))
    simp [splitDash, ih, hc]

theorem splitDash_append : ∀ {a b : List Char}, '-' ∉ a → '-' ∉ b →
    splitDash (a ++ '-' :: b) = [a, b]
  | [], b, _, hb => by simp [splitDash, splitDash_no_dash hb]
  | c :: t, b, ha, hb => by
    have hc : ¬(c = '-') := fun hh => ha (hh ▸ List.mem_cons_self c t)
    have ih := splitDash_append (a := t) (b := b)
      (fun hm => ha (List.mem_cons_of_mem c hm)) hb
    simp [splitDash, ih, hc]

theorem dash_split_unique : ∀ {a a' b b' : List Char}, '-' ∉ a → '-' ∉ a' →
    a ++ '-' :: b = a' ++ '-' :: b' → a = a' ∧ b = b'
  | [], [], b, b', _, _, h => by
    simp only [List.nil_append, List.cons.injEq] at h
    exact ⟨rfl, h.2⟩
  | [], c' :: t', b, b', _, ha', h => by
    simp only [List.nil_append, List.cons_append, List.cons.injEq] at h
    exact absurd (h.1.symm ▸ List.mem_cons_self c' t') ha'
  | c :: t, [], b, b', ha, _, h => by
    simp only [List.nil_append, List.cons_append, List.cons.injEq] at h
    exact absurd (h.1 ▸ List.mem_cons_self c t) ha
  | c :: t, c' :: t', b, b', ha, ha', h => by
    simp only [List.cons_append, List.cons.injEq] at h
    have ih := dash_split_unique
      (fun hm => ha (List.mem_cons_of_mem c hm))
      (fun hm => ha' (List.mem_cons_of_mem c' hm)) h.2
    exact ⟨by rw [h.1, ih.1], ih.2⟩

theorem largeRef_digits {v : List Char} (hd : ∀ c ∈ v, pyDigit c = true) :
    largeRef (some v) = false := by
  have hnd : '-' ∉ v := digits_no_dash hd
  simp [largeRef, List.contains, hnd]

theorem largeRef_range {a b : List Char} (ha : ∀ c ∈ a, pyDigit c = true)
    (hb : ∀ c ∈ b, pyDigit c = true) :
    largeRef (some (a ++ '-' :: b)) =
      decide (((pyIntL b : Int) - (pyIntL a : Int)) > 10) := by
  have hc : '-' ∈ a ++ '-' :: b := List.mem_append.mpr (Or.inr (List.mem_cons_self _ _))
  simp [largeRef, List.contains, hc, splitDash_append (digits_no_dash ha) (digits_no_dash hb)]

theorem parseVerse_shape : ∀ {t v : List Char}, parseVerse t = some v →
    (v ≠ [] ∧ ∀ c ∈ v, pyDigit c = true) ∨
    (∃ a b, v = a ++ '-' :: b ∧ a ≠ [] ∧ b ≠ [] ∧
      (∀ c ∈ a, pyDigit c = true) ∧ (∀ c ∈ b, pyDigit c = true)) := by
  intro t v h
  cases t with
  | nil => cases h
  | cons c t' =>
    simp only [parseVerse] at h
    by_cases hcd : c = ':' ∨ c = '.'
    · rw [if_pos hcd] at h
      by_cases h1 : (t'.takeWhile pyDigit).isEmpty
      · rw [if_pos h1] at h
        cases h
      · rw [if_neg h1] at h
        have hv1ne : t'.takeWhile pyDigit ≠ [] := by simpa [List.isEmpty_iff] using h1
        have hv1d : ∀ c ∈ t'.takeWhile pyDigit, pyDigit c = true :=
          fun c hc => List.mem_takeWhile_imp hc
        split at h
        · rename_i t2 heq
          by_cases h2 : (List.takeWhile pyDigit t2).isEmpty
          · rw [if_pos h2] at h
            cases h
            exact Or.inl ⟨hv1ne, hv1d⟩
          · rw [if_neg h2] at h
            cases h
            exact Or.inr ⟨t'.takeWhile pyDigit, t2.takeWhile pyDigit, rfl, hv1ne,
              by simpa [List.isEmpty_iff] using h2, hv1d,
              fun c hc => List.mem_takeWhile_imp hc⟩
        · cases h
          exact Or.inl ⟨hv1ne, hv1d⟩
    · rw [if_neg hcd] at h
      cases h

theorem matchTail_verse {r4 v : List Char} (h : (matchTail r4).2.2 = some v) :
    ∃ t, parseVerse t = some v := by
  unfold matchTail at h
  by_cases h1 : (r4.takeWhile pySpace).isEmpty
  · rw [if_pos h1] at h
    cases h
  · rw [if_neg h1] at h
    by_cases h2 : ((r4.dropWhile pySpace).takeWhile pyDigit).isEmpty
    · rw [if_pos h2] at h
      cases h
    · rw [if_neg h2] at h
      exact ⟨_, h⟩

/-- C2 counterexample: the claim quantifies over every input, but on an
input with no structural match (here `"?"`) the verse component is
absent while `large_reference` stays `False`. -/
theorem c2_counterexample :
    (BibleBooks.extract_book_reference "?").verse = none ∧
    (BibleBooks.extract_book_reference "?").large_reference = false := by decide

/-- C2 (amended): `large_reference` is true exactly when the reference
regex matched at all AND the verse is absent or is a range "a-b" of
width more than 10; on inputs with no structural match the flag stays
`False` although the verse is absent.  The three examples of the claim
hold as stated. -/
theorem c2_amended :
    (∀ input : String,
      (BibleBooks.extract_book_reference input).large_reference = true ↔
        (matchRef input.toList).isSome ∧
          ((BibleBooks.extract_book_reference input).verse = none ∨
            ∃ a b, (BibleBooks.extract_book_reference input).verse =
                some (String.mk (a ++ '-' :: b)) ∧
              (∀ c ∈ a, pyDigit c = true) ∧ (∀ c ∈ b, pyDigit c = true) ∧
              a ≠ [] ∧ b ≠ [] ∧ ((pyIntL b : Int) - (pyIntL a : Int)) > 10)) ∧
    (BibleBooks.extract_book_reference "Psalm 23").large_reference = true ∧
    (BibleBooks.extract_book_reference "Psalm 23:1-5").large_reference = false ∧
    (BibleBooks.extract_book_reference "Psalm 23:1-15").large_reference = true := by
  refine ⟨?_, by decide, by decide, by decide⟩
  intro input
  cases hm : matchRef input.toList with
  | none =>
    rw [extract_of_no_match hm]
    simp
  | some m =>
    rw [extract_large_of_match hm, extract_verse_of_match hm]
    simp only [Option.isSome_some, true_and]
    cases hv : m.verse with
    | none => simp [largeRef]
    | some v =>
      rcases matchRef_inv hm with ⟨r4, _, _, _, hvv⟩
      rw [hv] at hvv
      rcases matchTail_verse hvv.symm with ⟨tv, hpv⟩
      rcases parseVerse_shape hpv with ⟨hne, hdig⟩ | ⟨a, b, rfl, hane, hbne, hda, hdb⟩
      · rw [largeRef_digits hdig]
        simp only [Option.map_some']
        constructor
        · intro hfalse
          simp at hfalse
        · rintro (heq | ⟨a, b, heq, hda2, hdb2, hane2, hbne2, hw2⟩)
          · cases heq
          · have hveq : v = a ++ '-' :: b :=
              congrArg String.data (Option.some.inj heq)
            have hmem : '-' ∈ v := by
              rw [hveq]
              exact List.mem_append.mpr (Or.inr (List.mem_cons_self _ _))
            exact absurd (hdig '-' hmem) (by decide)
      · rw [largeRef_range hda hdb]
        simp only [Option.map_some', decide_eq_true_eq]
        constructor
        · intro hw
          exact Or.inr ⟨a, b, rfl, hda, hdb, hane, hbne, hw⟩
        · intro hor
          rcases hor with heq | hex
          · cases heq
          · obtain ⟨a2, b2, heq, hda2, hdb2, hane2, hbne2, hw2⟩ := hex
            have hleq : a ++ '-' :: b = a2 ++ '-' :: b2 :=
              congrArg String.data (Option.some.inj heq)
            obtain ⟨ha3, hb3⟩ :=
              dash_split_unique (digits_no_dash hda) (digits_no_dash hda2) hleq
            rw [ha3, hb3]
            exact hw2

/-- C2 witness: a wide range trips the flag through the amended
biconditional. -/
theorem c2_witness :
    (BibleBooks.extract_book_reference "Gen 2:3-20").large_reference = true :=
  (c2_amended.1 "Gen 2:3-20").mpr
    ⟨by decide, Or.inr ⟨['3'], ['2', '0'], by decide, by decide, by decide,
      by decide, by decide, by decide⟩⟩

theorem pySpace_not_pyAlpha {c : Char} (h : pySpace c = true) : pyAlpha c = false := by
  cases ha : pyAlpha c
  · rfl
  · rw [pyAlpha_not_pySpace ha] at h
    cases h

theorem pySpace_not_pyDigit {c : Char} (h : pySpace c = true) : pyDigit c = false := by
  cases hd : pyDigit c
  · rfl
  · rw [pyDigit_not_pySpace hd] at h
    cases h

theorem parseWordsF_head_space (fuel : Nat) (l : List Char) :
    (parseWordsF fuel l).1 = [] ∨
    ∃ c w, (parseWordsF fuel l).1 = c :: w ∧ pySpace c = true := by
  cases l with
  | nil => left; simp [parseWordsF]
  | cons c rest =>
    cases fuel with
    | zero => left; simp [parseWordsF]
    | succ f =>
      by_cases hs : pySpace c
      · by_cases he : (rest.takeWhile pyAlpha).isEmpty
        · left; simp [parseWordsF, hs, he]
        · right
          refine ⟨c, rest.takeWhile pyAlpha ++ (parseWordsF f (rest.dropWhile pyAlpha)).1,
            ?_, hs⟩
          simp [parseWordsF, hs, he]
      · left; simp [parseWordsF, hs]

theorem parseWordsF_last_alpha : ∀ (fuel : Nat) (l : List Char),
    (parseWordsF fuel l).1 = [] ∨
    ∃ c, ((parseWordsF fuel l).1).getLast? = some c ∧ pyAlpha c = true
  | _, [] => by left; simp [parseWordsF]
  | 0, _ :: _ => by left; simp [parseWordsF]
  | fuel + 1, c :: rest => by
    by_cases hs : pySpace c
    · by_cases he : (rest.takeWhile pyAlpha).isEmpty
      · left; simp [parseWordsF, hs, he]
      · right
        have hlsne : rest.takeWhile pyAlpha ≠ [] := by simpa [List.isEmpty_iff] using he
        have hout : (parseWordsF (fuel + 1) (c :: rest)).1 =
            c :: (rest.takeWhile pyAlpha ++ (parseWordsF fuel (rest.dropWhile pyAlpha)).1) := by
          simp [parseWordsF, hs, he]
        rcases parseWordsF_last_alpha fuel (rest.dropWhile pyAlpha) with hm | ⟨d, hd1, hd2⟩
        · refine ⟨(rest.takeWhile pyAlpha).getLast hlsne, ?_, ?_⟩
          · rw [hout, hm, List.append_nil, List.getLast?_cons, List.getLast?_eq_getLast _ hlsne]
            simp [List.getLastD]
          · exact List.mem_takeWhile_imp (List.getLast_mem hlsne)
        · refine ⟨d, ?_, hd2⟩
          have hmne : (parseWordsF fuel (rest.dropWhile pyAlpha)).1 ≠ [] := by
            intro hnil
            rw [hnil] at hd1
            cases hd1
          rw [hout, List.getLast?_cons, List.getLast?_append, hd1]
          simp [List.getLastD]
    · left; simp [parseWordsF, hs]

theorem takeWhile_parseWords_out {u m z : List Char}
    (hls : ∀ c ∈ u, pyAlpha c = true)
    (hm : m = [] ∨ ∃ c w, m = c :: w ∧ pySpace c = true)
    (hz : ∀ c, z.head? = some c → pyAlpha c = false) :
    (u ++ (m ++ z)).takeWhile pyAlpha = u ∧ (u ++ (m ++ z)).dropWhile pyAlpha = m ++ z := by
  refine takeWhile_append_of_head hls ?_
  intro c hc
  rcases hm with rfl | ⟨d, w, rfl, hd⟩
  · exact hz c (by simpa using hc)
  · simp only [List.cons_append, List.head?_cons, Option.some.injEq] at hc
    rw [← hc]
    exact pySpace_not_pyAlpha hd

theorem parseWordsF_fst_self : ∀ (fuel : Nat) (l : List Char), l.length ≤ fuel →
    parseWords (parseWordsF fuel l).1 = ((parseWordsF fuel l).1, [])
  | _, [], _ => by simp [parseWords, parseWordsF]
  | 0, _ :: _, h => by simp at h
  | fuel + 1, c :: rest, h => by
    by_cases hs : pySpace c
    · by_cases he : (rest.takeWhile pyAlpha).isEmpty
      · simp [parseWords, parseWordsF, hs, he]
      · have hrest : rest.length ≤ fuel := Nat.le_of_succ_le_succ (by simpa using h)
        have hdlen : (rest.dropWhile pyAlpha).length ≤ rest.length :=
          (List.dropWhile_suffix pyAlpha).length_le
        have ih := parseWordsF_fst_self fuel (rest.dropWhile pyAlpha) (le_trans hdlen hrest)
        have hout : (parseWordsF (fuel + 1) (c :: rest)).1 =
            c :: (rest.takeWhile pyAlpha ++ (parseWordsF fuel (rest.dropWhile pyAlpha)).1) := by
          simp [parseWordsF, hs, he]
        rw [hout]
        set m := (parseWordsF fuel (rest.dropWhile pyAlpha)).1 with hm
        have htw := takeWhile_parseWords_out (u := rest.takeWhile pyAlpha) (m := m)
          (z := []) (fun c hc => List.mem_takeWhile_imp hc)
          (by
            rcases parseWordsF_head_space fuel (rest.dropWhile pyAlpha) with h1 | ⟨d, w, h1, h2⟩
            · exact Or.inl h1
            · exact Or.inr ⟨d, w, h1, h2⟩)
          (fun c hc => by simp at hc)
        rw [List.append_nil] at htw
        simp only [parseWords, List.length_cons, parseWordsF, hs, if_true]
        rw [htw.1, htw.2]
        have hee : (rest.takeWhile pyAlpha).isEmpty = false := by
          simpa using he
        rw [hee]
        simp only [Bool.false_eq_true, if_false]
        have hfuel2 : parseWordsF (rest.takeWhile pyAlpha ++ m).length m =
            parseWordsF m.length m := by
          refine parseWordsF_fuel _ _ m ?_ le_rfl
          simp [List.length_append]
        rw [hfuel2]
        have : parseWordsF m.length m = (m, []) := by
          simpa [parseWords] using ih
        rw [this]
    · simp [parseWords, parseWordsF, hs]

theorem parseWords_fst_self (l : List Char) :
    parseWords (parseWords l).1 = ((parseWords l).1, []) :=
  parseWordsF_fst_self l.length l le_rfl

theorem parseWords_append : ∀ (w z : List Char), parseWords w = (w, []) →
    parseWords z = ([], z) → (∀ c, z.head? = some c → pyAlpha c = false) →
    parseWords (w ++ z) = (w, z)
  | [], z, _, hz1, _ => by simpa using hz1
  | c :: rest, z, hw, hz1, hz2 => by
    have hw' : parseWordsF (rest.length + 1) (c :: rest) = (c :: rest, []) := by
      simpa [parseWords] using hw
    by_cases hs : pySpace c
    · by_cases he : (rest.takeWhile pyAlpha).isEmpty
      · simp [parseWordsF, hs, he] at hw'
      · have heq : (c :: (rest.takeWhile pyAlpha ++
            (parseWordsF rest.length (rest.dropWhile pyAlpha)).1),
            (parseWordsF rest.length (rest.dropWhile pyAlpha)).2) = ((c :: rest : List Char), ([] : List Char)) := by
          simpa [parseWordsF, hs, he] using hw'
        have h1 : rest.takeWhile pyAlpha ++
            (parseWordsF rest.length (rest.dropWhile pyAlpha)).1 = rest := by
          have := congrArg Prod.fst heq
          simpa using this
        have h2 : (parseWordsF rest.length (rest.dropWhile pyAlpha)).2 = [] := by
          have := congrArg Prod.snd heq
          simpa using this
        set m := (parseWordsF rest.length (rest.dropWhile pyAlpha)).1 with hmdef
        have hparts := parseWordsF_parts rest.length (rest.dropWhile pyAlpha)
        rw [h2, List.append_nil] at hparts
        have hmlen : m.length ≤ rest.length := by
          rw [← h1, List.length_append]
          omega
        have hmdw : m = rest.dropWhile pyAlpha := by rw [hmdef, hparts]
        have hms : parseWordsF rest.length (rest.dropWhile pyAlpha) = (m, []) := by
          rw [← Prod.mk.eta (p := parseWordsF rest.length (rest.dropWhile pyAlpha)), h2,
            ← hmdef]
        have hm_self : parseWords m = (m, []) := by
          have hfi : parseWordsF m.length m = parseWordsF rest.length m :=
            parseWordsF_fuel _ _ m le_rfl hmlen
          rw [parseWords, hfi]
          conv_lhs => rw [hmdw]
          exact hms
        have hrec : parseWords (m ++ z) = (m, z) :=
          parseWords_append m z hm_self hz1 hz2
        have htw := takeWhile_parseWords_out (u := rest.takeWhile pyAlpha) (m := m)
          (z := z) (fun c hc => List.mem_takeWhile_imp hc)
          (by
            rcases parseWordsF_head_space rest.length (rest.dropWhile pyAlpha) with
              hh | ⟨d, w', hh, hd⟩
            · exact Or.inl hh
            · exact Or.inr ⟨d, w', hh, hd⟩)
          hz2
        have hgoal : (c :: rest) ++ z = c :: ((rest.takeWhile pyAlpha) ++ (m ++ z)) := by
          rw [← List.append_assoc, h1]
          rfl
        rw [hgoal]
        simp only [parseWords, List.length_cons, parseWordsF, hs, if_true]
        rw [htw.1, htw.2]
        have hee : (rest.takeWhile pyAlpha).isEmpty = false := by simpa using he
        rw [hee]
        simp only [Bool.false_eq_true, if_false]
        have hfi2 : parseWordsF (rest.takeWhile pyAlpha ++ (m ++ z)).length (m ++ z) =
            parseWordsF (m ++ z).length (m ++ z) := by
          refine parseWordsF_fuel _ _ _ ?_ le_rfl
          simp [List.length_append]
        rw [hfi2]
        have hmz : parseWordsF (m ++ z).length (m ++ z) = (m, z) := by
          simpa [parseWords] using hrec
        rw [hmz]
        simp [h1]
    · simp [parseWordsF, hs] at hw'
termination_by w _ _ _ _ => w.length
decreasing_by
  simp only [List.length_cons]
  rw [← hmdef]
  omega

theorem takeWhile_of_all {p : Char → Bool} {l : List Char} (h : ∀ c ∈ l, p c = true) :
    l.takeWhile p = l ∧ l.dropWhile p = [] := by
  have := takeWhile_append_of_head (p := p) (u := l) (w := []) h (by simp)
  simpa using this

theorem reverse_dropWhile_noop {l : List Char}
    (h : ∀ c, l.getLast? = some c → pySpace c = false) :
    (l.reverse.dropWhile pySpace).reverse = l := by
  cases hrev : l.reverse with
  | nil =>
    have : l = [] := by simpa [List.reverse_eq_nil_iff] using hrev
    simp [this]
  | cons c t =>
    have hc : l.getLast? = some c := by
      rw [← List.head?_reverse, hrev]
      rfl
    rw [List.dropWhile_cons_of_neg (by simp [h c hc]), ← hrev, List.reverse_reverse]

theorem pyStrip_eq_self {l : List Char}
    (h1 : ∀ c, l.head? = some c → pySpace c = false)
    (h2 : ∀ c, l.getLast? = some c → pySpace c = false) : pyStrip l = l := by
  unfold pyStrip
  have hd : l.dropWhile pySpace = l := by
    cases l with
    | nil => rfl
    | cons a t => exact List.dropWhile_cons_of_neg (by simp [h1 a rfl])
  rw [hd]
  exact reverse_dropWhile_noop h2

theorem pyStrip_drop_left {ss rest : List Char} (hss : ∀ c ∈ ss, pySpace c = true)
    (h1 : ∀ c, rest.head? = some c → pySpace c = false)
    (h2 : ∀ c, rest.getLast? = some c → pySpace c = false) :
    pyStrip (ss ++ rest) = rest := by
  unfold pyStrip
  rw [(takeWhile_append_of_head hss h1).2]
  exact reverse_dropWhile_noop h2

theorem g1_getLast_alpha {ds ss ls ws : List Char}
    (hls : ∀ c ∈ ls, pyAlpha c = true) (hlsne : ls ≠ [])
    (hws_last : ws = [] ∨ ∃ c, ws.getLast? = some c ∧ pyAlpha c = true) :
    ∀ c, (ds ++ ss ++ ls ++ ws).getLast? = some c → pyAlpha c = true := by
  intro c hc
  rcases hws_last with rfl | ⟨d, hd1, hd2⟩
  · rw [List.append_nil, List.getLast?_append, List.getLast?_eq_getLast ls hlsne] at hc
    simp only [Option.or_some, Option.some.injEq] at hc
    rw [← hc]
    exact hls _ (List.getLast_mem hlsne)
  · rw [List.getLast?_append, hd1] at hc
    simp only [Option.or_some, Option.some.injEq] at hc
    rw [← hc]
    exact hd2

theorem matchBook_clean {ds ss ls ws t : List Char}
    (hds : ∀ c ∈ ds, pyDigit c = true) (hss : ∀ c ∈ ss, pySpace c = true)
    (hls : ∀ c ∈ ls, pyAlpha c = true) (hlsne : ls ≠ [])
    (hws_head : ws = [] ∨ ∃ c w, ws = c :: w ∧ pySpace c = true)
    (hws_self : parseWords ws = (ws, []))
    (ht1 : parseWords t = ([], t))
    (ht2 : ∀ c, t.head? = some c → pyAlpha c = false) :
    matchBook (ds ++ (ss ++ (ls ++ (ws ++ t)))) = some (ds ++ ss ++ ls ++ ws, t) := by
  obtain ⟨a, ls', rfl⟩ : ∃ a ls', ls = a :: ls' := by
    cases ls with
    | nil => exact absurd rfl hlsne
    | cons a ls' => exact ⟨a, ls', rfl⟩
  have hhead1 : ∀ c, (ss ++ ((a :: ls') ++ (ws ++ t))).head? = some c →
      pyDigit c = false := by
    intro c hc
    cases ss with
    | nil =>
      simp only [List.nil_append, List.cons_append, List.head?_cons,
        Option.some.injEq] at hc
      rw [← hc]
      exact pyAlpha_not_pyDigit (hls a (List.mem_cons_self _ _))
    | cons s ss' =>
      simp only [List.cons_append, List.head?_cons, Option.some.injEq] at hc
      rw [← hc]
      exact pySpace_not_pyDigit (hss s (List.mem_cons_self _ _))
  have hstep1 := takeWhile_append_of_head hds hhead1
  have hhead2 : ∀ c, ((a :: ls') ++ (ws ++ t)).head? = some c → pySpace c = false := by
    intro c hc
    simp only [List.cons_append, List.head?_cons, Option.some.injEq] at hc
    rw [← hc]
    exact pyAlpha_not_pySpace (hls a (List.mem_cons_self _ _))
  have hstep2 := takeWhile_append_of_head hss hhead2
  have hstep3 := takeWhile_parseWords_out (u := a :: ls') (m := ws) (z := t)
    hls hws_head ht2
  have hpw := parseWords_append ws t hws_self ht1 ht2
  simp only [matchBook]
  rw [hstep1.1, hstep1.2, hstep2.1, hstep2.2, hstep3.1, hstep3.2, hpw]
  simp [List.append_assoc]

theorem matchRef_clean_nil {ds ss ls ws : List Char}
    (hds : ∀ c ∈ ds, pyDigit c = true) (hss : ∀ c ∈ ss, pySpace c = true)
    (hls : ∀ c ∈ ls, pyAlpha c = true) (hlsne : ls ≠ [])
    (hws_head : ws = [] ∨ ∃ c w, ws = c :: w ∧ pySpace c = true)
    (hws_self : parseWords ws = (ws, [])) :
    matchRef (ds ++ (ss ++ (ls ++ ws))) =
      some ⟨ds ++ ss ++ ls ++ ws, none, none, none⟩ := by
  have h := matchBook_clean (t := []) hds hss hls hlsne hws_head hws_self rfl
    (by simp)
  rw [List.append_nil] at h
  unfold matchRef
  rw [h]
  rfl

theorem matchRef_clean_tail {ds ss ls ws c v : List Char}
    (hds : ∀ x ∈ ds, pyDigit x = true) (hss : ∀ x ∈ ss, pySpace x = true)
    (hls : ∀ x ∈ ls, pyAlpha x = true) (hlsne : ls ≠ [])
    (hws_head : ws = [] ∨ ∃ x w, ws = x :: w ∧ pySpace x = true)
    (hws_self : parseWords ws = (ws, []))
    (hcne : c ≠ []) (hcd : ∀ x ∈ c, pyDigit x = true)
    (hv : (v ≠ [] ∧ ∀ x ∈ v, pyDigit x = true) ∨
      (∃ a b, v = a ++ '-' :: b ∧ a ≠ [] ∧ b ≠ [] ∧
        (∀ x ∈ a, pyDigit x = true) ∧ (∀ x ∈ b, pyDigit x = true))) :
    matchRef (ds ++ (ss ++ (ls ++ (ws ++ (' ' :: (c ++ ':' :: v)))))) =
      some ⟨ds ++ ss ++ ls ++ ws, some c, none, some v⟩ := by
  obtain ⟨c0, c', rfl⟩ : ∃ c0 c', c = c0 :: c' := by
    cases c with
    | nil => exact absurd rfl hcne
    | cons c0 c' => exact ⟨c0, c', rfl⟩
  have hc0d : pyDigit c0 = true := hcd c0 (List.mem_cons_self _ _)
  have ht1 : parseWords (' ' :: ((c0 :: c') ++ ':' :: v)) =
      ([], ' ' :: ((c0 :: c') ++ ':' :: v)) := by
    simp only [parseWords, List.length_cons, parseWordsF, List.cons_append]
    rw [if_pos (by decide : pySpace ' ' = true),
      List.takeWhile_cons_of_neg (by simp [pyDigit_not_pyAlpha hc0d])]
    simp
  have ht2 : ∀ x, (' ' :: ((c0 :: c') ++ ':' :: v)).head? = some x →
      pyAlpha x = false := by
    intro x hx
    simp only [List.head?_cons, Option.some.injEq] at hx
    rw [← hx]
    decide
  have hb := matchBook_clean (t := ' ' :: ((c0 :: c') ++ ':' :: v))
    hds hss hls hlsne hws_head hws_self ht1 ht2
  unfold matchRef
  rw [hb]
  have hns : ¬(pySpace c0 = true) := by simp [pyDigit_not_pySpace hc0d]
  have hsp : pySpace ' ' = true := by decide
  have hch := takeWhile_append_of_head (p := pyDigit) (u := c0 :: c')
    (w := ':' :: v) hcd (by
      intro x hx
      simp only [List.head?_cons, Option.some.injEq] at hx
      rw [← hx]
      decide)
  simp only [List.cons_append] at hch
  have hside : parseSide (':' :: v) = (none, ':' :: v) := rfl
  have hpv : parseVerse (':' :: v) = some v := by
    simp only [parseVerse]
    rw [if_pos (Or.inl trivial : True ∨ ':' = '.')]
    rcases hv with ⟨hvne, hvd⟩ | ⟨a, b, rfl, hane, hbne, had, hbd⟩
    · rw [(takeWhile_of_all hvd).1, (takeWhile_of_all hvd).2]
      have hvnee : ¬(v.isEmpty = true) := by simpa [List.isEmpty_iff] using hvne
      rw [if_neg hvnee]
    · have hta := takeWhile_append_of_head (p := pyDigit) (u := a)
        (w := '-' :: b) had (by
          intro x hx
          simp only [List.head?_cons, Option.some.injEq] at hx
          rw [← hx]
          decide)
      rw [hta.1, hta.2]
      have hanee : ¬(a.isEmpty = true) := by simpa [List.isEmpty_iff] using hane
      rw [if_neg hanee]
      show (if (List.takeWhile pyDigit b).isEmpty = true then some a
          else some (a ++ '-' :: List.takeWhile pyDigit b)) = some (a ++ '-' :: b)
      rw [(takeWhile_of_all hbd).1]
      have hbnee : ¬(b.isEmpty = true) := by simpa [List.isEmpty_iff] using hbne
      rw [if_neg hbnee]
  have hmt : matchTail (' ' :: ((c0 :: c') ++ ':' :: v)) =
      (some (c0 :: c'), none, some v) := by
    simp only [matchTail, List.cons_append]
    rw [List.takeWhile_cons_of_pos hsp, List.takeWhile_cons_of_neg hns,
      List.dropWhile_cons_of_pos hsp, List.dropWhile_cons_of_neg hns,
      hch.1, hch.2, hside, hpv]
    simp
  simp only [List.cons_append] at hmt ⊢
  rw [hmt]

theorem selfTok_clean {ds ss ls ws : List Char}
    (hds : ∀ x ∈ ds, pyDigit x = true) (hss : ∀ x ∈ ss, pySpace x = true)
    (hls : ∀ x ∈ ls, pyAlpha x = true) (hlsne : ls ≠ [])
    (hws_head : ws = [] ∨ ∃ x w, ws = x :: w ∧ pySpace x = true)
    (hws_last : ws = [] ∨ ∃ x, ws.getLast? = some x ∧ pyAlpha x = true)
    (hws_self : parseWords ws = (ws, [])) :
    matchBook (pyStrip (ds ++ ss ++ ls ++ ws)) =
      some (pyStrip (ds ++ ss ++ ls ++ ws), []) ∧
    pyStrip (pyStrip (ds ++ ss ++ ls ++ ws)) = pyStrip (ds ++ ss ++ ls ++ ws) := by
  obtain ⟨a, ls', rfl⟩ : ∃ a ls', ls = a :: ls' := by
    cases ls with
    | nil => exact absurd rfl hlsne
    | cons a ls' => exact ⟨a, ls', rfl⟩
  have hlast : ∀ x, (ds ++ ss ++ (a :: ls') ++ ws).getLast? = some x →
      pyAlpha x = true := g1_getLast_alpha hls hlsne hws_last
  have hlast2 : ∀ x, ((a :: ls') ++ ws).getLast? = some x → pyAlpha x = true := by
    have h0 : ∀ x, (([] : List Char) ++ [] ++ (a :: ls') ++ ws).getLast? = some x →
        pyAlpha x = true := g1_getLast_alpha hls hlsne hws_last
    simpa using h0
  have hhead2 : ∀ x, ((a :: ls') ++ ws).head? = some x → pySpace x = false := by
    intro x hx
    simp only [List.cons_append, List.head?_cons, Option.some.injEq] at hx
    rw [← hx]
    exact pyAlpha_not_pySpace (hls a (List.mem_cons_self _ _))
  have hnilD : ∀ x ∈ ([] : List Char), pyDigit x = true := by simp
  have hnilS : ∀ x ∈ ([] : List Char), pySpace x = true := by simp
  have ht2nil : ∀ x, ([] : List Char).head? = some x → pyAlpha x = false := by simp
  cases ds with
  | nil =>
    have hstrip : pyStrip ([] ++ ss ++ (a :: ls') ++ ws) = (a :: ls') ++ ws := by
      have he : ([] : List Char) ++ ss ++ (a :: ls') ++ ws =
          ss ++ ((a :: ls') ++ ws) := by
        simp [List.append_assoc]
      rw [he]
      exact pyStrip_drop_left hss hhead2
        (fun x hx => pyAlpha_not_pySpace (hlast2 x hx))
    have hmb := matchBook_clean hnilD hnilS hls hlsne hws_head hws_self
      (show parseWords ([] : List Char) = ([], []) from rfl) ht2nil
    have hmb2 : matchBook ((a :: ls') ++ ws) = some ((a :: ls') ++ ws, []) := by
      simpa using hmb
    have hidem : pyStrip ((a :: ls') ++ ws) = (a :: ls') ++ ws :=
      pyStrip_eq_self hhead2 (fun x hx => pyAlpha_not_pySpace (hlast2 x hx))
    rw [hstrip]
    exact ⟨hmb2, hidem⟩
  | cons d ds' =>
    have hd : pyDigit d = true := hds d (List.mem_cons_self _ _)
    have hhead : ∀ x, ((d :: ds') ++ ss ++ (a :: ls') ++ ws).head? = some x →
        pySpace x = false := by
      intro x hx
      simp only [List.cons_append, List.head?_cons, Option.some.injEq] at hx
      rw [← hx]
      exact pyDigit_not_pySpace hd
    have hstrip : pyStrip ((d :: ds') ++ ss ++ (a :: ls') ++ ws) =
        (d :: ds') ++ ss ++ (a :: ls') ++ ws :=
      pyStrip_eq_self hhead (fun x hx => pyAlpha_not_pySpace (hlast x hx))
    have hmb := matchBook_clean hds hss hls hlsne hws_head hws_self
      (show parseWords ([] : List Char) = ([], []) from rfl) ht2nil
    rw [hstrip]
    constructor
    · simpa [List.append_assoc] using hmb
    · exact hstrip

theorem selfTok_of_match {l g1 r4 : List Char} (h : matchBook l = some (g1, r4)) :
    matchBook (pyStrip g1) = some (pyStrip g1, []) ∧
      pyStrip (pyStrip g1) = pyStrip g1 := by
  obtain ⟨hg1, hr4, hlsne⟩ := matchBook_inv h
  have hds : ∀ x ∈ l.takeWhile pyDigit, pyDigit x = true :=
    fun x hx => List.mem_takeWhile_imp hx
  have hss : ∀ x ∈ (l.dropWhile pyDigit).takeWhile pySpace, pySpace x = true :=
    fun x hx => List.mem_takeWhile_imp hx
  have hls : ∀ x ∈ ((l.dropWhile pyDigit).dropWhile pySpace).takeWhile pyAlpha,
      pyAlpha x = true := fun x hx => List.mem_takeWhile_imp hx
  have hws_head :
      (parseWords (((l.dropWhile pyDigit).dropWhile pySpace).dropWhile pyAlpha)).1 = [] ∨
      ∃ x w, (parseWords (((l.dropWhile pyDigit).dropWhile pySpace).dropWhile pyAlpha)).1 =
        x :: w ∧ pySpace x = true := parseWordsF_head_space _ _
  have hws_last :
      (parseWords (((l.dropWhile pyDigit).dropWhile pySpace).dropWhile pyAlpha)).1 = [] ∨
      ∃ x, ((parseWords (((l.dropWhile pyDigit).dropWhile pySpace).dropWhile pyAlpha)).1).getLast? =
        some x ∧ pyAlpha x = true := parseWordsF_last_alpha _ _
  rw [hg1]
  exact selfTok_clean hds hss hls hlsne hws_head hws_last (parseWords_fst_self _)

theorem table_selfTok :
    ∀ e ∈ BibleBooks.bible_books,
      matchBook (pyStrip e.book.toList) = some (pyStrip e.book.toList, []) ∧
      pyStrip (pyStrip e.book.toList) = pyStrip e.book.toList := by decide

theorem matchRef_selfTok {b c v : List Char}
    (hb : matchBook b = some (b, []))
    (hcne : c ≠ []) (hcd : ∀ x ∈ c, pyDigit x = true)
    (hv : (v ≠ [] ∧ ∀ x ∈ v, pyDigit x = true) ∨
      (∃ a d, v = a ++ '-' :: d ∧ a ≠ [] ∧ d ≠ [] ∧
        (∀ x ∈ a, pyDigit x = true) ∧ (∀ x ∈ d, pyDigit x = true))) :
    matchRef (b ++ ' ' :: (c ++ ':' :: v)) = some ⟨b, some c, none, some v⟩ := by
  obtain ⟨hg1, hr4, hlsne⟩ := matchBook_inv hb
  have hds : ∀ x ∈ b.takeWhile pyDigit, pyDigit x = true :=
    fun x hx => List.mem_takeWhile_imp hx
  have hss : ∀ x ∈ (b.dropWhile pyDigit).takeWhile pySpace, pySpace x = true :=
    fun x hx => List.mem_takeWhile_imp hx
  have hls : ∀ x ∈ ((b.dropWhile pyDigit).dropWhile pySpace).takeWhile pyAlpha,
      pyAlpha x = true := fun x hx => List.mem_takeWhile_imp hx
  have hws_head :
      (parseWords (((b.dropWhile pyDigit).dropWhile pySpace).dropWhile pyAlpha)).1 = [] ∨
      ∃ x w, (parseWords (((b.dropWhile pyDigit).dropWhile pySpace).dropWhile pyAlpha)).1 =
        x :: w ∧ pySpace x = true := parseWordsF_head_space _ _
  have key := matchRef_clean_tail hds hss hls hlsne hws_head
    (parseWords_fst_self _) hcne hcd hv
  rw [hg1]
  simpa [List.append_assoc] using key

theorem extract_reference_full {input : String} {g1 cl vl : List Char}
    (h : matchRef input.toList = some ⟨g1, some cl, none, some vl⟩)
    (hclne : cl ≠ []) (hvlne : vl ≠ []) :
    (BibleBooks.extract_book_reference input).reference =
      BibleBooks.get_book_name (String.mk (pyStrip g1)) ++ " " ++ String.mk cl
        ++ ":" ++ String.mk vl := by
  have hct : pyTruthyS (String.mk cl) = true :=
    pyTruthyS_of_ne_nil (by simpa [string_toList_mk] using hclne)
  have hvt : pyTruthyS (String.mk vl) = true :=
    pyTruthyS_of_ne_nil (by simpa [string_toList_mk] using hvlne)
  simp only [BibleBooks.extract_book_reference, h, Option.map, hct, hvt,
    eq_self_iff_true, if_true]
  apply string_toList_inj
  have hemp : ("" : String).toList = [] := rfl
  simp [string_toList_append, string_toList_mk, hemp]

/-- C6 counterexample: the claim asserts the round trip for every
successfully parsed input with all components present, but the alias
table resolves the token `"Ecclus"` to the title `"Ecclesiasticus"`,
which is itself listed as an abbreviation of the earlier entry
`"Sirach"`; re-parsing the produced reference string
`"Ecclesiasticus 7:7"` therefore yields `"Sirach 7:7"`, not the
original canonical string. -/
theorem c6_counterexample :
    (BibleBooks.extract_book_reference "Ecclus 7:7").book = some "Ecclesiasticus" ∧
    (BibleBooks.extract_book_reference "Ecclus 7:7").chapter = some "7" ∧
    (BibleBooks.extract_book_reference "Ecclus 7:7").verse = some "7" ∧
    (BibleBooks.extract_book_reference "Ecclus 7:7").reference = "Ecclesiasticus 7:7" ∧
    (BibleBooks.extract_book_reference "Ecclesiasticus 7:7").reference = "Sirach 7:7" ∧
    ("Sirach 7:7" : String) ≠ "Ecclesiasticus 7:7" := by decide

/-- C6 (amended): for every input that `extract_book_reference` parses
with book, chapter and verse all present, no side letter, and whose
resolved book name is a fixed point of `get_book_name` (it does not
occur as an abbreviation of another table entry), the produced
`reference` string is exactly `"{book} {chapter}:{verse}"`, and feeding
it back into `extract_book_reference` reproduces that same string. -/
theorem c6_amended (input b c v : String)
    (hb : (BibleBooks.extract_book_reference input).book = some b)
    (hc : (BibleBooks.extract_book_reference input).chapter = some c)
    (hv : (BibleBooks.extract_book_reference input).verse = some v)
    (hs : (BibleBooks.extract_book_reference input).side = none)
    (hfix : BibleBooks.get_book_name b = b) :
    (BibleBooks.extract_book_reference input).reference = b ++ " " ++ c ++ ":" ++ v ∧
    (BibleBooks.extract_book_reference (b ++ " " ++ c ++ ":" ++ v)).reference =
      b ++ " " ++ c ++ ":" ++ v := by
  cases hm : matchRef input.toList with
  | none =>
    rw [extract_of_no_match hm] at hb
    simp at hb
  | some m =>
    have hbook := extract_book_of_match hm
    have hch := extract_chapter_of_match hm
    have hvv := extract_verse_of_match hm
    have hsd := extract_side_of_match hm
    rw [hb] at hbook
    rw [hc] at hch
    rw [hv] at hvv
    rw [hs] at hsd
    have hbeq : b = BibleBooks.get_book_name (String.mk (pyStrip m.g1)) :=
      Option.some.inj hbook
    obtain ⟨r4, hmb, hch2, hsd2, hvs2⟩ := matchRef_inv hm
    cases hmc : m.chapter with
    | none => rw [hmc] at hch; simp at hch
    | some cl =>
    cases hmv : m.verse with
    | none => rw [hmv] at hvv; simp at hvv
    | some vl =>
    cases hmsd : m.side with
    | some s => rw [hmsd] at hsd; simp at hsd
    | none =>
    have hceq : c = String.mk cl := by rw [hmc] at hch; simpa using hch
    have hveq : v = String.mk vl := by rw [hmv] at hvv; simpa using hvv
    rw [hmc] at hch2
    rw [hmv] at hvs2
    obtain ⟨hcl_eq, hclne, hcld⟩ := matchTail_chapter hch2.symm
    obtain ⟨t, hpv⟩ := matchTail_verse hvs2.symm
    have hshape := parseVerse_shape hpv
    have hvlne : vl ≠ [] := by
      rcases hshape with ⟨h1, _⟩ | ⟨x, y, heq, hx, hy, _, _⟩
      · exact h1
      · rw [heq]; simp
    have hmlit : m = ⟨m.g1, some cl, none, some vl⟩ := by
      rw [← hmc, ← hmsd, ← hmv]
    rw [hmlit] at hm
    have hTok : matchBook b.toList = some (b.toList, []) ∧
        pyStrip b.toList = b.toList := by
      rw [hbeq]
      unfold BibleBooks.get_book_name
      cases hf : BibleBooks.bible_books.find? (aliasMatch (String.mk (pyStrip m.g1))) with
      | none => exact selfTok_of_match hmb
      | some e => exact table_selfTok e (List.mem_of_find?_eq_some hf)
    have hpart1 : (BibleBooks.extract_book_reference input).reference =
        b ++ " " ++ c ++ ":" ++ v := by
      rw [extract_reference_full hm hclne hvlne, ← hbeq, ← hceq, ← hveq]
    have hlist : (b ++ " " ++ c ++ ":" ++ v).toList =
        b.toList ++ ' ' :: (cl ++ ':' :: vl) := by
      have hsp1 : (" " : String).toList = [' '] := rfl
      have hco1 : (":" : String).toList = [':'] := rfl
      rw [hceq, hveq]
      simp [string_toList_append, string_toList_mk, hsp1, hco1]
    have hm2 : matchRef (b ++ " " ++ c ++ ":" ++ v).toList =
        some ⟨b.toList, some cl, none, some vl⟩ := by
      rw [hlist]
      exact matchRef_selfTok hTok.1 hclne hcld hshape
    refine ⟨hpart1, ?_⟩
    rw [extract_reference_full hm2 hclne hvlne]
    rw [hTok.2, string_mk_toList, hfix, ← hceq, ← hveq]

/-- C6 witness: the reference `"Gen 3:5"` resolves to the book
`"Genesis"`, a fixed point of `get_book_name`, and the round trip
reproduces `"Genesis 3:5"`. -/
theorem c6_witness :
    (BibleBooks.extract_book_reference "Gen 3:5").reference =
        "Genesis" ++ " " ++ "3" ++ ":" ++ "5" ∧
    (BibleBooks.extract_book_reference
        ("Genesis" ++ " " ++ "3" ++ ":" ++ "5")).reference =
      "Genesis" ++ " " ++ "3" ++ ":" ++ "5" :=
  c6_amended "Gen 3:5" "Genesis" "3" "5" (by decide) (by decide) (by decide)
    (by decide) (by decide)
